import Mathlib

set_option maxHeartbeats 1000000
set_option maxRecDepth 10000

/-
  Verification development for the AgentVille event ingestion, persistence
  and progression engine (server/bridge.mjs, server/agentStore.mjs,
  server/buildingStore.mjs, server/dwarfNames.mjs).

  The JavaScript modules are shallowly embedded: module-level mutable maps
  become explicit state records threaded through pure functions, JS numbers
  used as counters become Nat/Int (byte counters are Int because the bridge
  feeds them `parseInt(...) || 0`, which can be negative), `Date.now()`
  becomes an explicit `now : Nat` parameter, and broadcast becomes a list of
  emitted events returned beside the new state.
-/

namespace AgentVille

/-- An entry of a level table: `{ level, title, minXP }` as in the JS
level tables. -/
structure LevelEntry where
  level : Nat
  title : String
  minXP : Int
deriving DecidableEq, Repr

/-- Scan a level table from its highest-indexed entry downward and return
the first (i.e. highest-indexed) entry with `minXP ≤ xp`; this is the
downward `for` loop shared by both stores' `getLevel`. -/
def scanLast (tbl : List LevelEntry) (xp : Int) : Option LevelEntry :=
  match tbl with
  | [] => none
  | e :: rest =>
    match scanLast rest xp with
    | some r => some r
    | none => if e.minXP ≤ xp then some e else none

/-- Well-formedness of a level table: entries appear with strictly
increasing level numbers and strictly increasing XP thresholds. -/
def TableSorted (tbl : List LevelEntry) : Prop :=
  List.Pairwise (fun a b => a.level < b.level ∧ a.minXP < b.minXP) tbl

instance : DecidablePred TableSorted := fun tbl =>
  List.instDecidablePairwise tbl

/-- Every non-maximal level of the table has a successor entry whose level
number is exactly one greater. -/
def SuccClosed (tbl : List LevelEntry) : Prop :=
  ∀ e ∈ tbl, (∃ m ∈ tbl, e.level < m.level) → ∃ m ∈ tbl, m.level = e.level + 1

instance : DecidablePred SuccClosed := fun tbl => by
  unfold SuccClosed
  infer_instance

theorem scanLast_mem {tbl : List LevelEntry} {xp : Int} {r : LevelEntry}
    (h : scanLast tbl xp = some r) : r ∈ tbl ∧ r.minXP ≤ xp := by
  induction tbl with
  | nil => simp [scanLast] at h
  | cons e rest ih =>
    rw [scanLast] at h
    cases hrest : scanLast rest xp with
    | some r' =>
      rw [hrest] at h
      cases h
      have := ih hrest
      exact ⟨List.mem_cons_of_mem _ this.1, this.2⟩
    | none =>
      rw [hrest] at h
      by_cases hle : e.minXP ≤ xp
      · simp [hle] at h
        cases h
        exact ⟨List.mem_cons_self _ _, hle⟩
      · simp [hle] at h

theorem scanLast_isSome {tbl : List LevelEntry} {xp : Int} {e : LevelEntry}
    (he : e ∈ tbl) (hle : e.minXP ≤ xp) : (scanLast tbl xp).isSome := by
  induction tbl with
  | nil => simp at he
  | cons a rest ih =>
    rw [scanLast]
    cases hrest : scanLast rest xp with
    | some r' => simp
    | none =>
      rcases List.mem_cons.mp he with rfl | hmem
      · simp [hle]
      · have := ih hmem
        rw [hrest] at this
        simp at this

theorem pairwise_rel {α : Type} {R : α → α → Prop} {l : List α} {a b : α}
    (h : List.Pairwise R l) (ha : a ∈ l) (hb : b ∈ l) (hne : a ≠ b) :
    R a b ∨ R b a := by
  induction l with
  | nil => simp at ha
  | cons x xs ih =>
    rcases List.pairwise_cons.mp h with ⟨hx, hxs⟩
    rcases List.mem_cons.mp ha with rfl | ha'
    · rcases List.mem_cons.mp hb with rfl | hb'
      · exact absurd rfl hne
      · exact Or.inl (hx b hb')
    · rcases List.mem_cons.mp hb with rfl | hb'
      · exact Or.inr (hx a ha')
      · exact ih hxs ha' hb'

theorem table_level_lt_minXP {tbl : List LevelEntry} (hs : TableSorted tbl)
    {a b : LevelEntry} (ha : a ∈ tbl) (hb : b ∈ tbl)
    (hlt : a.level < b.level) : a.minXP < b.minXP := by
  have hne : a ≠ b := by
    intro hEq
    rw [hEq] at hlt
    exact lt_irrefl _ hlt
  rcases pairwise_rel hs ha hb hne with h | h
  · exact h.2
  · exact absurd hlt (not_lt_of_gt h.1)

theorem table_level_inj {tbl : List LevelEntry} (hs : TableSorted tbl)
    {a b : LevelEntry} (ha : a ∈ tbl) (hb : b ∈ tbl)
    (heq : a.level = b.level) : a = b := by
  by_contra hne
  rcases pairwise_rel hs ha hb hne with h | h
  · rw [heq] at h
    exact lt_irrefl _ h.1
  · rw [heq] at h
    exact lt_irrefl _ h.1

theorem scanLast_max {tbl : List LevelEntry} {xp : Int} {r : LevelEntry}
    (hs : TableSorted tbl) (h : scanLast tbl xp = some r) :
    ∀ e ∈ tbl, e.minXP ≤ xp → e.level ≤ r.level := by
  induction tbl with
  | nil => intro e he; simp at he
  | cons a rest ih =>
    intro e he hle
    rw [scanLast] at h
    rcases List.pairwise_cons.mp hs with ⟨hx, hrest'⟩
    cases hrest : scanLast rest xp with
    | some r' =>
      rw [hrest] at h
      cases h
      rcases List.mem_cons.mp he with rfl | he'
      · exact Nat.le_of_lt (hx _ (scanLast_mem hrest).1).1
      · exact ih hrest' hrest e he' hle
    | none =>
      rw [hrest] at h
      by_cases hle' : a.minXP ≤ xp
      · simp [hle'] at h
        subst h
        rcases List.mem_cons.mp he with rfl | he'
        · exact le_rfl
        · have := scanLast_isSome he' hle
          rw [hrest] at this
          simp at this
      · simp [hle'] at h

theorem scanLast_eq_of_max {tbl : List LevelEntry} (hs : TableSorted tbl)
    {y : Int} {N : LevelEntry} (hN : N ∈ tbl) (hNle : N.minXP ≤ y)
    (hmax : ∀ e ∈ tbl, e.minXP ≤ y → e.level ≤ N.level) :
    scanLast tbl y = some N := by
  have hsome := scanLast_isSome hN hNle
  cases hscan : scanLast tbl y with
  | none => rw [hscan] at hsome; simp at hsome
  | some r =>
    have hr := scanLast_mem hscan
    have h1 : r.level ≤ N.level := hmax r hr.1 hr.2
    have h2 : N.level ≤ r.level := scanLast_max hs hscan N hN hNle
    have : r = N := table_level_inj hs hr.1 hN (Nat.le_antisymm h1 h2)
    rw [this]

theorem find?_first {tbl : List LevelEntry} (hs : TableSorted tbl)
    {p : LevelEntry → Bool} {N : LevelEntry} (h : tbl.find? p = some N) :
    ∀ e ∈ tbl, p e = false ∨ N.level ≤ e.level := by
  intro e he
  induction tbl with
  | nil => simp at he
  | cons a rest ih =>
    by_cases hpa : p a
    · rw [List.find?_cons_of_pos _ hpa] at h
      cases h
      rcases List.mem_cons.mp he with rfl | he'
      · exact Or.inr le_rfl
      · rcases List.pairwise_cons.mp hs with ⟨hx, _⟩
        exact Or.inr (Nat.le_of_lt (hx e he').1)
    · rw [List.find?_cons_of_neg _ hpa] at h
      rcases List.mem_cons.mp he with rfl | he'
      · exact Or.inl (by simpa using hpa)
      · exact ih (List.Pairwise.sublist (List.sublist_cons_self a rest) hs) h he'

theorem scanLast_nonneg_some {tbl : List LevelEntry} {xp : Int}
    (h0 : ∃ e ∈ tbl, e.minXP = 0) (hxp : 0 ≤ xp) :
    ∃ r, scanLast tbl xp = some r := by
  rcases h0 with ⟨e, he, he0⟩
  have := @scanLast_isSome tbl xp e he (by rw [he0]; exact hxp)
  cases hscan : scanLast tbl xp with
  | none => rw [hscan] at this; simp at this
  | some r => exact ⟨r, rfl⟩

/-- The generic level-table specification: for nonnegative XP, the
downward scan returns the highest-indexed entry whose threshold is met,
and the upward `find?` (the next level) is consistent with it. -/
theorem levelTable_spec (tbl : List LevelEntry) (hs : TableSorted tbl)
    (hsucc : SuccClosed tbl) (h0 : ∃ e ∈ tbl, e.minXP = 0)
    (xp : Int) (hxp : 0 ≤ xp) :
    (∃ r, scanLast tbl xp = some r ∧ r ∈ tbl ∧ r.minXP ≤ xp ∧
      ∀ e ∈ tbl, e.minXP ≤ xp → e.level ≤ r.level) ∧
    (∀ N, tbl.find? (fun l => xp < l.minXP) = some N →
      scanLast tbl N.minXP = some N ∧
      (∀ r', scanLast tbl (N.minXP - 1) = some r' → r' ≠ N) ∧
      (∀ r', scanLast tbl xp = some r' → N.level = r'.level + 1)) := by
  constructor
  · rcases scanLast_nonneg_some h0 hxp with ⟨r, hr⟩
    exact ⟨r, hr, (scanLast_mem hr).1, (scanLast_mem hr).2, scanLast_max hs hr⟩
  · intro N hN
    have hNmem : N ∈ tbl := List.mem_of_find?_eq_some hN
    have hNgt : xp < N.minXP := by
      have := List.find?_some hN
      simpa using this
    refine ⟨?_, ?_, ?_⟩
    · refine scanLast_eq_of_max hs hNmem le_rfl ?_
      intro e he hle
      by_contra hgt
      push_neg at hgt
      have := table_level_lt_minXP hs hNmem he hgt
      omega
    · intro r' hr'
      have := (scanLast_mem hr').2
      intro hEq
      rw [hEq] at this
      omega
    · intro r' hr'
      have hrmem := (scanLast_mem hr').1
      have hrle := (scanLast_mem hr').2
      have hlt : r'.level < N.level := by
        rcases Nat.lt_trichotomy r'.level N.level with h | h | h
        · exact h
        · exact absurd (table_level_inj hs hrmem hNmem h) (by
            intro hEq
            rw [hEq] at hrle
            omega)
        · have := table_level_lt_minXP hs hNmem hrmem h
          omega
      rcases hsucc r' hrmem ⟨N, hNmem, hlt⟩ with ⟨M, hMmem, hM⟩
      have hMgt : xp < M.minXP := by
        by_contra hMle
        push_neg at hMle
        have := scanLast_max hs hr' M hMmem hMle
        omega
      rcases find?_first hs hN M hMmem with hfalse | hle
      · simp [hMgt] at hfalse
      · omega

/-! ## Association-list maps

JS `Map` objects and plain objects keyed by strings are embedded as
association lists. `aset` rebinds in place or appends, `amodify` updates
the binding if present and is a no-op otherwise (the stores'
`if (!profile) return` pattern), `aerase` is `Map.delete`. -/

def alookup {α : Type} : List (String × α) → String → Option α
  | [], _ => none
  | hd :: tl, k => if hd.1 = k then some hd.2 else alookup tl k

def aset {α : Type} (m : List (String × α)) (k : String) (v : α) :
    List (String × α) :=
  if m.any (fun p => p.1 = k) then
    m.map (fun p => if p.1 = k then (k, v) else p)
  else m ++ [(k, v)]

def amodify {α : Type} (m : List (String × α)) (k : String) (f : α → α) :
    List (String × α) :=
  m.map (fun p => if p.1 = k then (k, f p.2) else p)

def aerase {α : Type} (m : List (String × α)) (k : String) :
    List (String × α) :=
  m.filter (fun p => ¬ p.1 = k)

/-- JS optional-string truthiness: `null`/`undefined`/`""` are falsy. -/
def optTruthy : Option String → Bool
  | some s => s ≠ ""
  | none => false

theorem alookup_amodify {α : Type} (m : List (String × α)) (k k' : String)
    (f : α → α) :
    alookup (amodify m k f) k' =
      if k' = k then (alookup m k').map f else alookup m k' := by
  induction m with
  | nil => simp [amodify, alookup]
  | cons hd tl ih =>
    simp only [amodify, List.map_cons] at ih ⊢
    by_cases h2 : k' = k
    · subst h2
      by_cases h1 : hd.1 = k'
      · simp [alookup, h1]
      · simp [alookup, h1, ih]
    · by_cases h1 : hd.1 = k
      · have hne : ¬ (k = k') := fun h => h2 h.symm
        have hne' : ¬ (hd.1 = k') := h1 ▸ hne
        simp [alookup, h1, hne, hne', ih, h2]
      · by_cases h3 : hd.1 = k'
        · simp [alookup, h1, h3, h2]
        · simp [alookup, h1, h3, ih, h2]

theorem alookup_append {α : Type} (m₁ m₂ : List (String × α)) (k : String) :
    alookup (m₁ ++ m₂) k =
      match alookup m₁ k with
      | some v => some v
      | none => alookup m₂ k := by
  induction m₁ with
  | nil => simp [alookup]
  | cons hd tl ih =>
    by_cases h : hd.1 = k
    · simp [alookup, h]
    · simp [alookup, h, ih]

theorem alookup_none_of_not_any {α : Type} {m : List (String × α)}
    {k : String} (h : ¬ m.any (fun p => p.1 = k)) :
    alookup m k = none := by
  induction m with
  | nil => rfl
  | cons hd tl ih =>
    simp only [List.any_cons, Bool.or_eq_true, decide_eq_true_eq, not_or] at h
    simp [alookup, h.1, ih h.2]

theorem alookup_isSome_of_mem {α : Type} {m : List (String × α)}
    {p : String × α} {k : String} (hp : p ∈ m) (hpk : p.1 = k) :
    (alookup m k).isSome := by
  induction m with
  | nil => simp at hp
  | cons hd tl ih =>
    rcases List.mem_cons.mp hp with rfl | hp'
    · simp [alookup, hpk]
    · by_cases hh : hd.1 = k
      · simp [alookup, hh]
      · simp [alookup, hh, ih hp']

theorem alookup_aset {α : Type} (m : List (String × α)) (k k' : String)
    (v : α) :
    alookup (aset m k v) k' =
      if k' = k then some v else alookup m k' := by
  unfold aset
  by_cases hany : m.any (fun p => p.1 = k)
  · rw [if_pos hany]
    have hmod : (m.map (fun p => if p.1 = k then (k, v) else p)) =
        amodify m k (fun _ => v) := rfl
    rw [hmod, alookup_amodify]
    by_cases h2 : k' = k
    · subst h2
      rcases List.any_eq_true.mp hany with ⟨p, hp, hpk⟩
      simp only [decide_eq_true_eq] at hpk
      rcases Option.isSome_iff_exists.mp (alookup_isSome_of_mem hp hpk)
        with ⟨a, ha⟩
      simp [ha]
    · simp [h2]
  · rw [if_neg hany]
    rw [alookup_append]
    by_cases h2 : k' = k
    · subst h2
      rw [alookup_none_of_not_any hany]
      simp [alookup]
    · have h2' : ¬ (k = k') := fun h => h2 h.symm
      cases hm : alookup m k' with
      | some a => simp [h2]
      | none => simp [alookup, h2, h2']

theorem alookup_aerase {α : Type} (m : List (String × α)) (k k' : String) :
    alookup (aerase m k) k' =
      if k' = k then none else alookup m k' := by
  induction m with
  | nil => simp [aerase, alookup]
  | cons hd tl ih =>
    unfold aerase at ih ⊢
    simp only [decide_not] at ih ⊢
    rw [List.filter_cons]
    by_cases hh : hd.1 = k
    · rw [if_neg (by simp [hh])]
      rw [ih]
      by_cases h2 : k' = k
      · simp [h2]
      · have : ¬ (hd.1 = k') := by
          rw [hh]; exact fun h => h2 h.symm
        simp [h2, alookup, this]
    · rw [if_pos (by simp [hh])]
      by_cases hh' : hd.1 = k'
      · by_cases h2 : k' = k
        · exact absurd (h2 ▸ hh') hh
        · simp [alookup, hh', h2]
      · simp [alookup, hh', ih]

namespace AgentStore

/-- The agent level table from `agentStore.mjs`. -/
def LEVELS : List LevelEntry :=
  [⟨1, "Apprentice", 0⟩, ⟨2, "Journeyman", 50⟩, ⟨3, "Craftsman", 200⟩,
   ⟨4, "Smith", 500⟩, ⟨5, "Master", 1200⟩, ⟨6, "Grand Master", 3000⟩,
   ⟨7, "Rune Master", 7000⟩, ⟨8, "Legendary", 15000⟩, ⟨9, "Mythical", 30000⟩,
   ⟨10, "Divine", 60000⟩]

/-- `getLevel(xp)`: scan the table from the top downward for the first
entry with `minXP <= xp`; fall back to `LEVELS[0]`. -/
def getLevel (xp : Int) : LevelEntry :=
  match scanLast LEVELS xp with
  | some l => l
  | none => ⟨1, "Apprentice", 0⟩

/-- `getNextLevel(xp)`: first entry with `xp < minXP`, else `null`. -/
def getNextLevel (xp : Int) : Option LevelEntry :=
  LEVELS.find? (fun l => xp < l.minXP)

/-- One entry of a profile's `recentActivity` ring buffer. -/
structure ActivityEntry where
  activity : String
  detail : String
  timestamp : Nat
deriving DecidableEq, Repr

/-- A durable agent profile as stored in `agents.json`. The source's
profile object carries no `clan` property (the store never writes one), so
`clan` is constantly `none` here; `totalBytes` is the legacy combined byte
field, `0` for profiles created by this code. -/
structure Profile where
  name : String
  toolCalls : Nat
  totalInputBytes : Int
  totalOutputBytes : Int
  totalBytes : Int
  sessions : Nat
  subAgentsSpawned : Nat
  parentId : Option String
  clan : Option String
  firstSeen : Nat
  lastSeen : Nat
  recentActivity : List ActivityEntry
deriving DecidableEq, Repr

abbrev Store := List (String × Profile)

/-- `calculateXP(profile)`: 1 XP per tool call plus
`Math.floor(bytes / 5000)` where bytes sums both counters and the legacy
field. `Math.floor` of a real quotient is integer floor division. -/
def calculateXP (p : Profile) : Int :=
  (p.toolCalls : Int) + (p.totalInputBytes + p.totalOutputBytes + p.totalBytes).fdiv 5000

/-- `getProfile(agentId, dwarfName, parentId)`: create with defaults on
first sight, otherwise set `parentId` only if not already set; afterwards
update `name` when a non-empty different name is supplied. The source
function declares no fourth parameter, so the `clan`/`project` argument the
bridge passes is accepted here and dropped, exactly as JS drops extra
arguments. -/
def getProfile (store : Store) (agentId dwarfName : String)
    (parentId : Option String) (clanArg : Option String) (now : Nat) :
    Store :=
  let store1 :=
    match alookup store agentId with
    | none =>
      aset store agentId
        { name := dwarfName, toolCalls := 0, totalInputBytes := 0,
          totalOutputBytes := 0, totalBytes := 0, sessions := 0,
          subAgentsSpawned := 0, parentId := parentId, clan := none,
          firstSeen := now, lastSeen := now, recentActivity := [] }
    | some p =>
      if optTruthy parentId ∧ ¬ optTruthy p.parentId then
        amodify store agentId (fun q => { q with parentId := parentId })
      else store
  if dwarfName ≠ "" then
    amodify store1 agentId
      (fun q => if q.name ≠ dwarfName then { q with name := dwarfName } else q)
  else store1

/-- `getStoredName(agentId)`: `store.agents[agentId]?.name || null`. -/
def getStoredName (store : Store) (agentId : String) : Option String :=
  match alookup store agentId with
  | some p => if p.name = "" then none else some p.name
  | none => none

/-- `recordToolUse(agentId)`: increment `toolCalls`, bump `lastSeen`; no-op
for unknown ids. -/
def recordToolUse (store : Store) (agentId : String) (now : Nat) : Store :=
  amodify store agentId
    (fun p => { p with toolCalls := p.toolCalls + 1, lastSeen := now })

/-- `recordBytes(agentId, inputBytes, outputBytes)`. -/
def recordBytes (store : Store) (agentId : String)
    (inputBytes outputBytes : Int) (now : Nat) : Store :=
  amodify store agentId
    (fun p => { p with totalInputBytes := p.totalInputBytes + inputBytes,
                       totalOutputBytes := p.totalOutputBytes + outputBytes,
                       lastSeen := now })

def MAX_RECENT : Nat := 20

/-- `recordActivity(agentId, activity, detail)`: append and keep the last
`MAX_RECENT` entries. -/
def recordActivity (store : Store) (agentId activity detail : String)
    (now : Nat) : Store :=
  amodify store agentId (fun p =>
    let ra := p.recentActivity ++ [⟨activity, detail, now⟩]
    { p with recentActivity :=
        if ra.length > MAX_RECENT then ra.drop (ra.length - MAX_RECENT) else ra })

/-- `recordSubAgentSpawn(parentAgentId)`. -/
def recordSubAgentSpawn (store : Store) (parentAgentId : String) : Store :=
  amodify store parentAgentId
    (fun p => { p with subAgentsSpawned := p.subAgentsSpawned + 1 })

/-- `recordSession(agentId)`. -/
def recordSession (store : Store) (agentId : String) : Store :=
  amodify store agentId (fun p => { p with sessions := p.sessions + 1 })

/-- The enriched profile shape returned by `getEnrichedProfile`. -/
structure Enriched where
  name : String
  toolCalls : Nat
  totalInputBytes : Int
  totalOutputBytes : Int
  sessions : Nat
  subAgentsSpawned : Nat
  parentId : Option String
  clan : Option String
  recentActivity : List ActivityEntry
  xp : Int
  level : Nat
  title : String
  nextLevelXP : Option Int
  nextTitle : Option String
deriving DecidableEq, Repr

/-- `getEnrichedProfile(agentId)`: stored fields plus computed progression;
the legacy `totalBytes` value is split `ceil`/`floor` between the two byte
counters. `Math.ceil(n / 2)` is `(n + 1).fdiv 2`. -/
def getEnrichedProfile (store : Store) (agentId : String) : Option Enriched :=
  match alookup store agentId with
  | none => none
  | some p =>
    let xp := calculateXP p
    let level := getLevel xp
    let next := getNextLevel xp
    some
      { name := p.name, toolCalls := p.toolCalls,
        totalInputBytes :=
          p.totalInputBytes + (if p.totalBytes ≠ 0 then (p.totalBytes + 1).fdiv 2 else 0),
        totalOutputBytes :=
          p.totalOutputBytes + (if p.totalBytes ≠ 0 then p.totalBytes.fdiv 2 else 0),
        sessions := p.sessions, subAgentsSpawned := p.subAgentsSpawned,
        parentId := p.parentId, clan := p.clan,
        recentActivity := p.recentActivity,
        xp := xp, level := level.level, title := level.title,
        nextLevelXP := next.map (fun l => l.minXP),
        nextTitle := next.map (fun l => l.title) }

/-- One element of the `getAllProfiles()` result; the source object has
exactly these fields (in particular no `clan` and no `recentActivity`). -/
structure AllEntry where
  agentId : String
  name : String
  toolCalls : Nat
  totalInputBytes : Int
  totalOutputBytes : Int
  sessions : Nat
  subAgentsSpawned : Nat
  parentId : Option String
  firstSeen : Nat
  lastSeen : Nat
  xp : Int
  level : Nat
  title : String
  nextLevelXP : Option Int
deriving DecidableEq, Repr

/-- `getAllProfiles()`. -/
def getAllProfiles (store : Store) : List AllEntry :=
  store.map (fun entry =>
    let p := entry.2
    let xp := calculateXP p
    let level := getLevel xp
    let next := getNextLevel xp
    { agentId := entry.1, name := p.name, toolCalls := p.toolCalls,
      totalInputBytes :=
        p.totalInputBytes + (if p.totalBytes ≠ 0 then (p.totalBytes + 1).fdiv 2 else 0),
      totalOutputBytes :=
        p.totalOutputBytes + (if p.totalBytes ≠ 0 then p.totalBytes.fdiv 2 else 0),
      sessions := p.sessions, subAgentsSpawned := p.subAgentsSpawned,
      parentId := p.parentId, firstSeen := p.firstSeen, lastSeen := p.lastSeen,
      xp := xp, level := level.level, title := level.title,
      nextLevelXP := next.map (fun l => l.minXP) })

end AgentStore

namespace BuildingStore

/-- `BUILDING_LEVELS` from `buildingStore.mjs`. -/
def BUILDING_LEVELS : List LevelEntry :=
  [⟨1, "Outpost", 0⟩, ⟨2, "Workshop", 100⟩, ⟨3, "Hall", 500⟩,
   ⟨4, "Stronghold", 1500⟩, ⟨5, "Citadel", 4000⟩, ⟨6, "Great Hall", 10000⟩,
   ⟨7, "Grand Fortress", 25000⟩, ⟨8, "Ancient Keep", 60000⟩,
   ⟨9, "Mythic Bastion", 140000⟩, ⟨10, "Eternal Nexus", 300000⟩]

/-- `CAMPFIRE_LEVELS` from `buildingStore.mjs`. -/
def CAMPFIRE_LEVELS : List LevelEntry :=
  [⟨1, "Campsite", 0⟩, ⟨2, "Gathering", 100⟩, ⟨3, "Meeting Place", 500⟩,
   ⟨4, "Town Square", 1500⟩, ⟨5, "Trading Post", 4000⟩, ⟨6, "Hub", 10000⟩,
   ⟨7, "Grand Plaza", 25000⟩, ⟨8, "Cultural Center", 60000⟩,
   ⟨9, "Sacred Circle", 140000⟩, ⟨10, "Heart of Village", 300000⟩]

/-- Table selection: the campfire has its own titles. -/
def levelsFor (buildingId : String) : List LevelEntry :=
  if buildingId = "campfire" then CAMPFIRE_LEVELS else BUILDING_LEVELS

/-- `getLevel(xp, buildingId)`. -/
def getLevel (xp : Int) (buildingId : String) : LevelEntry :=
  match scanLast (levelsFor buildingId) xp with
  | some l => l
  | none => (levelsFor buildingId).headD ⟨1, "", 0⟩

/-- `getNextLevel(xp, buildingId)`. -/
def getNextLevel (xp : Int) (buildingId : String) : Option LevelEntry :=
  (levelsFor buildingId).find? (fun l => xp < l.minXP)

/-- A durable building profile as stored in `buildings.json`. -/
structure BProfile where
  toolCalls : Nat
  totalInputBytes : Int
  totalOutputBytes : Int
  uniqueVisitors : List String
  totalVisits : Nat
  firstActivity : Nat
  lastActivity : Nat
deriving DecidableEq, Repr

abbrev BStore := List (String × BProfile)

/-- Building `calculateXP(profile)`: tool calls + `floor(bytes / 10000)` +
visit count. -/
def calculateXP (p : BProfile) : Int :=
  (p.toolCalls : Int) + (p.totalInputBytes + p.totalOutputBytes).fdiv 10000 +
    (p.totalVisits : Int)

/-- Building `getProfile(buildingId)`: create lazily with zero counters. -/
def getProfileStore (store : BStore) (buildingId : String) (now : Nat) :
    BStore :=
  match alookup store buildingId with
  | some _ => store
  | none =>
    aset store buildingId
      { toolCalls := 0, totalInputBytes := 0, totalOutputBytes := 0,
        uniqueVisitors := [], totalVisits := 0,
        firstActivity := now, lastActivity := now }

/-- Building `recordActivity(buildingId, toolCalls, inputBytes,
outputBytes)`. -/
def recordActivity (store : BStore) (buildingId : String)
    (toolCallsDelta : Nat) (inputBytes outputBytes : Int) (now : Nat) :
    BStore :=
  amodify (getProfileStore store buildingId now) buildingId (fun p =>
    { p with toolCalls := p.toolCalls + toolCallsDelta,
             totalInputBytes := p.totalInputBytes + inputBytes,
             totalOutputBytes := p.totalOutputBytes + outputBytes,
             lastActivity := now })

/-- Building `recordVisit(buildingId, agentId)`. -/
def recordVisit (store : BStore) (buildingId agentId : String) (now : Nat) :
    BStore :=
  amodify (getProfileStore store buildingId now) buildingId (fun p =>
    { p with totalVisits := p.totalVisits + 1,
             uniqueVisitors :=
               if agentId ∈ p.uniqueVisitors then p.uniqueVisitors
               else p.uniqueVisitors ++ [agentId],
             lastActivity := now })

/-- The enriched building profile (`uniqueVisitors` becomes its length). -/
structure BEnriched where
  buildingId : String
  toolCalls : Nat
  totalInputBytes : Int
  totalOutputBytes : Int
  uniqueVisitors : Nat
  totalVisits : Nat
  firstActivity : Nat
  lastActivity : Nat
  xp : Int
  level : Nat
  title : String
  nextLevelXP : Option Int
  nextTitle : Option String
deriving DecidableEq, Repr

/-- Building `getEnrichedProfile(buildingId)`. -/
def getEnrichedProfile (store : BStore) (buildingId : String) :
    Option BEnriched :=
  match alookup store buildingId with
  | none => none
  | some p =>
    let xp := calculateXP p
    let level := getLevel xp buildingId
    let next := getNextLevel xp buildingId
    some
      { buildingId := buildingId, toolCalls := p.toolCalls,
        totalInputBytes := p.totalInputBytes,
        totalOutputBytes := p.totalOutputBytes,
        uniqueVisitors := p.uniqueVisitors.length,
        totalVisits := p.totalVisits,
        firstActivity := p.firstActivity, lastActivity := p.lastActivity,
        xp := xp, level := level.level, title := level.title,
        nextLevelXP := next.map (fun l => l.minXP),
        nextTitle := next.map (fun l => l.title) }

/-- Building `getAllProfiles()`. -/
def getAllProfiles (store : BStore) : List BEnriched :=
  store.filterMap (fun entry => getEnrichedProfile store entry.1)

end BuildingStore

namespace DwarfNames

/-- The prefix syllable list from `dwarfNames.mjs`. -/
def PREFIXES : List String :=
  ["Grim", "Stein", "Brok", "Thar", "Dun",
   "Gor", "Hald", "Krag", "Vorn", "Drak",
   "Mund", "Narg", "Bald", "Ruk", "Gund",
   "Thur", "Dolg", "Svar", "Arn", "Bran",
   "Hjal", "Ragn", "Fjol", "Skjal", "Brund",
   "Vald", "Hrod", "Grond", "Durak", "Tholg"]

/-- The suffix syllable list from `dwarfNames.mjs`. -/
def SUFFIXES : List String :=
  ["in", "dur", "rik", "mund", "born",
   "gar", "nar", "rok", "mir", "din",
   "bor", "grim", "mar", "vir", "thak",
   "drin", "gor", "vald", "stein", "brak",
   "nir", "thar", "gruk", "mord", "rad"]

/-- `hashStr`: `h = ((h << 5) + h + charCodeAt(i)) >>> 0` starting from
5381; modulo `2^32` each step is `33 * h + c`. `charCodeAt` yields UTF-16
units, which coincide with code points for the identifiers involved. -/
def hashStr (s : String) : Nat :=
  s.data.foldl (fun h c => (33 * h + c.toNat) % 4294967296) 5381

/-- The candidate name at probe position `(p, q)`:
`PREFIXES[p] + SUFFIXES[q]`. -/
def mkName (p q : Nat) : String :=
  (PREFIXES.getD p "") ++ (SUFFIXES.getD q "")

/-- One probing step: advance the suffix index modulo the suffix list,
wrapping into the next prefix when the suffix index returns to 0. -/
def stepPos (pos : Nat × Nat) : Nat × Nat :=
  let q := (pos.2 + 1) % SUFFIXES.length
  let p := if q = 0 then (pos.1 + 1) % PREFIXES.length else pos.1
  (p, q)

/-- The probing `while` loop of `getDwarfName`; `fuel` stands for
`maxAttempts - attempts`, so the body can run at most `fuel` times, and
when fuel runs out the current (possibly colliding) candidate is kept. -/
def probe (used : List String) : Nat → Nat × Nat → Nat × Nat
  | fuel, pos =>
    if mkName pos.1 pos.2 ∈ used then
      match fuel with
      | 0 => pos
      | fuel' + 1 => probe used fuel' (stepPos pos)
    else pos

/-- The allocator's module state: `assigned` (agentId → dwarfName) and
`usedNames`. -/
structure NameState where
  assigned : List (String × String)
  usedNames : List String
deriving DecidableEq, Repr

def emptyNames : NameState := ⟨[], []⟩

/-- `maxAttempts = PREFIXES.length * SUFFIXES.length`. -/
def maxAttempts : Nat := PREFIXES.length * SUFFIXES.length

/-- `getDwarfName(agentId)`: idempotent per assigned id; otherwise derive a
start position from the hash, probe for an unused combination, and record
the assignment (`usedNames` has set semantics). -/
def getDwarfName (st : NameState) (agentId : String) : String × NameState :=
  match alookup st.assigned agentId with
  | some n => (n, st)
  | none =>
    let h := hashStr agentId
    let start := (h % PREFIXES.length, (h / 256) % SUFFIXES.length)
    let pos := probe st.usedNames maxAttempts start
    let name := mkName pos.1 pos.2
    (name,
      { assigned := aset st.assigned agentId name,
        usedNames :=
          if name ∈ st.usedNames then st.usedNames
          else st.usedNames ++ [name] })

/-- `releaseName(agentId)`: drop the assignment and free the name. -/
def releaseName (st : NameState) (agentId : String) : NameState :=
  match alookup st.assigned agentId with
  | some name =>
    { assigned := aerase st.assigned agentId,
      usedNames := st.usedNames.filter (fun n => ¬ n = name) }
  | none => st

end DwarfNames

namespace Bridge

/-- The discriminated-union broadcast events of the bridge. `levelup` is
declared in the frontend event vocabulary (`src/types.ts`,
`'agent:levelup'`, handled in `App.tsx`); it is part of the event type so
that claims about level-up broadcasts can be stated. -/
inductive Event where
  | spawn (agentId agentName agentRole : String) (level : Nat) (xp : Int)
      (parentId : Option String) (clan : Option String) (offline : Bool)
  | work (agentId activity detail targetBuilding : String)
  | tokens (agentId : String) (totalInputBytes totalOutputBytes : Int)
  | xpEv (agentId : String) (level : Nat) (xp : Int)
  | levelup (agentId : String) (level : Nat)
  | achievement (agentId agentName : String) (toolCalls : Nat)
  | waitingEv (agentId : String) (value : Bool)
  | despawnEv (agentId : String)
  | buildingXP (buildingId : String) (level : Nat) (xp : Int)
  | buildingState (buildingId : String) (level : Nat) (xp : Int)
deriving DecidableEq, Repr

/-- A live session entry of the in-memory `agents` map. -/
structure LiveAgent where
  name : String
  role : String
  activity : String
  detail : String
  project : String
  busy : Bool
  waiting : Bool
  totalInputBytes : Int
  totalOutputBytes : Int
  spawnedAt : Nat
  lastSeen : Nat
  parentId : Option String
deriving DecidableEq, Repr

/-- The bridge process state: the live-session map, both durable stores,
the name allocator state and the building previous-level map. -/
structure ServerState where
  agents : List (String × LiveAgent)
  store : AgentStore.Store
  bstore : BuildingStore.BStore
  names : DwarfNames.NameState
  buildingPrevLevels : List (String × Nat)
deriving DecidableEq, Repr

def initialState : ServerState := ⟨[], [], [], DwarfNames.emptyNames, []⟩

/-- `ACTIVITY_BUILDING` from `bridge.mjs`. -/
def ACTIVITY_BUILDING : List (String × String) :=
  [("planning", "guild"), ("coding", "forge"), ("testing", "arena"),
   ("researching", "library"), ("reviewing", "tower"), ("idle", "campfire")]

/-- `ACTIVITY_BUILDING[activity] || 'campfire'`. -/
def targetBuildingFor (activity : String) : String :=
  (alookup ACTIVITY_BUILDING activity).getD "campfire"

/-- `n || d` for a Nat-valued JS expression (0 is falsy). -/
def natOr (n d : Nat) : Nat := if n = 0 then d else n

/-- `updateBuildingXP(buildingId)`: look up the enriched building, remember
its level in `buildingPrevLevels` and broadcast a `building:xp` event; a
detected level increase is only written to the console. -/
def updateBuildingXP (s : ServerState) (buildingId : String) :
    ServerState × List Event :=
  match BuildingStore.getEnrichedProfile s.bstore buildingId with
  | none => (s, [])
  | some bp =>
    let _prevLevel := (alookup s.buildingPrevLevels buildingId).getD 1
    ({ s with buildingPrevLevels := aset s.buildingPrevLevels buildingId bp.level },
     [Event.buildingXP buildingId bp.level bp.xp])

/-- A parsed heartbeat request body, after the JS-side defaulting
(`data.detail || ''`, `parseInt(...) || 0`, and so on). `activity` and
`parentAgent` keep their raw optional strings; `busy` distinguishes an
absent field from `false`. -/
structure Heartbeat where
  agent : String := ""
  activity : Option String := none
  detail : String := ""
  project : String := ""
  parentAgent : Option String := none
  inputBytes : Int := 0
  outputBytes : Int := 0
  busy : Option Bool := none
  waiting : Bool := false
  newSpawn : Bool := false
deriving DecidableEq, Repr

def isLowerAlnum (c : Char) : Bool :=
  ('a' ≤ c ∧ c ≤ 'z') ∨ ('0' ≤ c ∧ c ≤ '9')

/-- Replace every maximal run of non-alphanumeric characters by a single
dash (`replace(/[^a-z0-9]+/g, '-')` on a lower-cased string); the flag
records whether the previous character belonged to such a run. -/
def collapseAux : Bool → List Char → List Char
  | _, [] => []
  | prevSep, c :: rest =>
    if isLowerAlnum c then c :: collapseAux false rest
    else if prevSep then collapseAux true rest
    else '-' :: collapseAux true rest

/-- `agentId` normalization: lower-case and collapse non-alphanumeric runs
to dashes. -/
def normalizeId (s : String) : String :=
  ⟨collapseAux false (s.data.map Char.toLower)⟩

/-- The new-agent branch of `/api/heartbeat` (the `!existing` arm). The
parameters are the locals already computed by the handler; the result is
the new state together with the broadcast events in emission order:
`agent:spawn`, then `building:xp` from `updateBuildingXP`, then the
unconditional `agent:work`. -/
def heartbeatSpawn (s : ServerState) (now : Nat) (agentId rawName : String)
    (activity : Option String) (detail project : String)
    (parentId : Option String) (inputBytes outputBytes : Int)
    (busy : Option Bool) (waitingIn : Bool) : ServerState × List Event :=
  let stored := AgentStore.getStoredName s.store agentId
  let dwarfName :=
    match stored with
    | some n => n
    | none => (DwarfNames.getDwarfName s.names agentId).1
  let names1 :=
    match stored with
    | some _ => s.names
    | none => (DwarfNames.getDwarfName s.names agentId).2
  let spawnActivity := activity.getD "idle"
  let store1 := AgentStore.getProfile s.store agentId dwarfName parentId
    (some project) now
  let store2 := AgentStore.recordSession store1 agentId
  let store3 :=
    if spawnActivity ≠ "idle" then AgentStore.recordToolUse store2 agentId now
    else store2
  let store4 :=
    if inputBytes ≠ 0 ∨ outputBytes ≠ 0 then
      AgentStore.recordBytes store3 agentId inputBytes outputBytes now
    else store3
  let store5 :=
    match parentId with
    | some pid => AgentStore.recordSubAgentSpawn store4 pid
    | none => store4
  let enriched := AgentStore.getEnrichedProfile store5 agentId
  let histIn := (enriched.map (fun e => e.totalInputBytes)).getD 0
  let histOut := (enriched.map (fun e => e.totalOutputBytes)).getD 0
  let agent : LiveAgent :=
    { name := dwarfName, role := rawName, activity := spawnActivity,
      detail := detail, project := project,
      busy := busy.getD false, waiting := waitingIn,
      totalInputBytes := histIn + inputBytes,
      totalOutputBytes := histOut + outputBytes,
      spawnedAt := now, lastSeen := now, parentId := parentId }
  let agents1 := aset s.agents agentId agent
  let eClan := enriched.bind (fun e => e.clan)
  let clanVal :=
    if optTruthy eClan then eClan
    else if project ≠ "" then some project else none
  let spawnEv := Event.spawn agentId dwarfName rawName
    (natOr ((enriched.map (fun e => e.level)).getD 1) 1)
    ((enriched.map (fun e => e.xp)).getD 0)
    parentId clanVal false
  let store6 :=
    if spawnActivity ≠ "idle" then
      AgentStore.recordActivity store5 agentId spawnActivity detail now
    else store5
  let spawnBuilding := targetBuildingFor spawnActivity
  let bstore1 := BuildingStore.recordVisit s.bstore spawnBuilding agentId now
  let bstore2 :=
    if spawnActivity ≠ "idle" then
      BuildingStore.recordActivity bstore1 spawnBuilding 1 inputBytes outputBytes now
    else bstore1
  let sMid : ServerState :=
    { agents := agents1, store := store6, bstore := bstore2,
      names := names1, buildingPrevLevels := s.buildingPrevLevels }
  let sAfter := (updateBuildingXP sMid spawnBuilding).1
  let bEvents := (updateBuildingXP sMid spawnBuilding).2
  (sAfter, [spawnEv] ++ bEvents ++
    [Event.work agentId spawnActivity detail spawnBuilding])

/-- The achievement milestone list of the heartbeat handler. -/
def MILESTONES : List Nat := [100, 500, 1000, 2500, 5000, 10000]

/-- The in-place mutations the existing-agent heartbeat branch applies to
the live session record: conditional activity/detail/project/busy writes,
the `lastSeen` bump, and the waiting-flag transition (set by a truthy
`waiting`, cleared by a non-idle activity). -/
def updateLiveAgent (ex0 : LiveAgent) (now : Nat) (activity : Option String)
    (detail project : String) (busy : Option Bool) (waitingIn : Bool) :
    LiveAgent :=
  let ex1 :=
    match activity with
    | some a => { ex0 with activity := a }
    | none => ex0
  let ex2 := if detail ≠ "" then { ex1 with detail := detail } else ex1
  let ex3 := if project ≠ "" then { ex2 with project := project } else ex2
  let ex4 :=
    match busy with
    | some b => { ex3 with busy := b }
    | none => ex3
  let ex5 := { ex4 with lastSeen := now }
  if waitingIn then { ex5 with waiting := true }
  else
    match activity with
    | some a => if a ≠ "idle" then { ex5 with waiting := false } else ex5
    | none => ex5

/-- The existing-agent branch of `/api/heartbeat`. Events are emitted in
source order: `agent:tokens` and its `building:xp`, the tool-call
`building:xp` and a possible `agent:achievement`, the per-heartbeat
`agent:xp` refresh (a detected level increase is only logged to the
console), a conditional `agent:work`, and a conditional `agent:waiting`. -/
def heartbeatExisting (s : ServerState) (now : Nat) (agentId : String)
    (existing : LiveAgent) (activity : Option String) (detail project : String)
    (parentId : Option String) (inputBytes outputBytes : Int)
    (busy : Option Bool) (waitingIn : Bool) (newSpawn : Bool) :
    ServerState × List Event :=
  let store0 :=
    match parentId with
    | some pid =>
      if newSpawn then
        AgentStore.recordSession
          (AgentStore.recordSubAgentSpawn s.store pid) agentId
      else s.store
    | none => s.store
  let ex0 :=
    match parentId with
    | some pid =>
      if newSpawn then
        if some pid ≠ existing.parentId then
          { existing with parentId := some pid }
        else existing
      else existing
    | none => existing
  let effectiveActivity :=
    match activity with
    | some a => a
    | none => ex0.activity
  let activityChanged : Bool :=
    match activity with
    | some a => ex0.activity ≠ a
    | none => false
  let detailChanged : Bool := detail ≠ "" ∧ ex0.detail ≠ detail
  -- `wasWaiting` is read before the waiting-flag update; the preceding
  -- field updates leave `waiting` untouched
  let wasWaiting := ex0.waiting
  let ex6 := updateLiveAgent ex0 now activity detail project busy waitingIn
  let _prevLevel :=
    natOr (((AgentStore.getEnrichedProfile store0 agentId).map
      (fun e => e.level)).getD 1) 1
  -- PostToolUse byte accounting
  let hasBytes := inputBytes ≠ 0 ∨ outputBytes ≠ 0
  let store1 :=
    if hasBytes then AgentStore.recordBytes store0 agentId inputBytes outputBytes now
    else store0
  let ex7 :=
    if hasBytes then
      { ex6 with totalInputBytes := ex6.totalInputBytes + inputBytes,
                 totalOutputBytes := ex6.totalOutputBytes + outputBytes }
    else ex6
  let tokenEvents :=
    if hasBytes then
      [Event.tokens agentId ex7.totalInputBytes ex7.totalOutputBytes]
    else []
  let bytesBuilding := targetBuildingFor effectiveActivity
  let bstore1 :=
    if hasBytes then
      BuildingStore.recordActivity s.bstore bytesBuilding 0 inputBytes outputBytes now
    else s.bstore
  let sTok : ServerState :=
    { agents := s.agents, store := store1, bstore := bstore1,
      names := s.names, buildingPrevLevels := s.buildingPrevLevels }
  let sTok2 :=
    if hasBytes then (updateBuildingXP sTok bytesBuilding).1 else sTok
  let tokenBXP :=
    if hasBytes then (updateBuildingXP sTok bytesBuilding).2 else []
  -- PreToolUse tool-call accounting
  let isTool : Bool :=
    match activity with
    | some a => a ≠ "idle"
    | none => false
  let store2 :=
    if isTool then AgentStore.recordToolUse sTok2.store agentId now
    else sTok2.store
  let toolBuilding := targetBuildingFor (activity.getD "")
  let bstore2 :=
    if isTool then
      BuildingStore.recordVisit
        (BuildingStore.recordActivity sTok2.bstore toolBuilding 1 0 0 now)
        toolBuilding agentId now
    else sTok2.bstore
  let sTool : ServerState := { sTok2 with store := store2, bstore := bstore2 }
  let sTool2 :=
    if isTool then (updateBuildingXP sTool toolBuilding).1 else sTool
  let toolBXP :=
    if isTool then (updateBuildingXP sTool toolBuilding).2 else []
  let achEvents :=
    if isTool then
      match AgentStore.getEnrichedProfile sTool2.store agentId with
      | some up =>
        if up.toolCalls ∈ MILESTONES then
          [Event.achievement agentId ex7.name up.toolCalls]
        else []
      | none => []
    else []
  -- per-heartbeat XP refresh (level-ups are only console-logged here)
  let xpEvents :=
    match AgentStore.getEnrichedProfile sTool2.store agentId with
    | some ne => [Event.xpEv agentId ne.level ne.xp]
    | none => []
  -- work event on an actual activity/detail change
  let store3 :=
    if (activityChanged || detailChanged) && activityChanged &&
        effectiveActivity ≠ "idle" then
      AgentStore.recordActivity sTool2.store agentId effectiveActivity
        (if detail ≠ "" then detail else ex7.detail) now
    else sTool2.store
  let workEvents :=
    if activityChanged || detailChanged then
      [Event.work agentId effectiveActivity ex7.detail
        (targetBuildingFor effectiveActivity)]
    else []
  let waitingEvents :=
    if ex7.waiting ≠ wasWaiting then [Event.waitingEv agentId ex7.waiting]
    else []
  let sFinal : ServerState :=
    { sTool2 with agents := aset s.agents agentId ex7, store := store3 }
  (sFinal,
    tokenEvents ++ tokenBXP ++ toolBXP ++ achEvents ++ xpEvents ++
      workEvents ++ waitingEvents)

/-- `data.activity || null`. -/
def normActivity : Option String → Option String
  | some a => if a = "" then none else some a
  | none => none

/-- `if (data.parentAgent) parentId = <normalized>` — `null` otherwise. -/
def normParent : Option String → Option String
  | some pa => if pa = "" then none else some (normalizeId pa)
  | none => none

/-- `/api/heartbeat`: parse-level defaulting and dispatch on whether the
agent is already live. -/
def heartbeat (s : ServerState) (now : Nat) (hb : Heartbeat) :
    ServerState × List Event :=
  let rawName := if hb.agent = "" then "Unknown Agent" else hb.agent
  let agentId := normalizeId rawName
  let activity := normActivity hb.activity
  let parentId := normParent hb.parentAgent
  match alookup s.agents agentId with
  | none =>
    heartbeatSpawn s now agentId rawName activity hb.detail hb.project
      parentId hb.inputBytes hb.outputBytes hb.busy hb.waiting
  | some existing =>
    heartbeatExisting s now agentId existing activity hb.detail hb.project
      parentId hb.inputBytes hb.outputBytes hb.busy hb.waiting hb.newSpawn

def DESPAWN_TIMEOUT : Nat := 600000

/-- The periodic auto-despawn sweep: remove every live agent whose
`lastSeen` is more than `DESPAWN_TIMEOUT` in the past, release its dwarf
name and broadcast `agent:despawn`. -/
def despawnSweep (s : ServerState) (now : Nat) : ServerState × List Event :=
  let timedOut := s.agents.filter
    (fun p => now - p.2.lastSeen > DESPAWN_TIMEOUT)
  let s' := timedOut.foldl
    (fun acc p =>
      { acc with agents := aerase acc.agents p.1,
                 names := DwarfNames.releaseName acc.names p.1 }) s
  (s', timedOut.map (fun p => Event.despawnEv p.1))

/-- The events the `/events` handler writes for one currently-live agent:
a `spawn` reconstructed from session + enriched profile, then conditional
`work`, `tokens` and `waiting`. -/
def liveSnapshotEvents (s : ServerState) (entry : String × LiveAgent) :
    List Event :=
  let agentId := entry.1
  let agent := entry.2
  let enriched := AgentStore.getEnrichedProfile s.store agentId
  let eClan := enriched.bind (fun e => e.clan)
  let clanVal :=
    if optTruthy eClan then eClan
    else if agent.project ≠ "" then some agent.project else none
  [Event.spawn agentId agent.name agent.role
    (natOr ((enriched.map (fun e => e.level)).getD 1) 1)
    ((enriched.map (fun e => e.xp)).getD 0)
    agent.parentId clanVal false] ++
  (if agent.activity ≠ "" ∧ agent.activity ≠ "idle" then
    [Event.work agentId agent.activity agent.detail
      (targetBuildingFor agent.activity)]
   else []) ++
  (if agent.totalInputBytes ≠ 0 ∨ agent.totalOutputBytes ≠ 0 then
    [Event.tokens agentId agent.totalInputBytes agent.totalOutputBytes]
   else []) ++
  (if agent.waiting then [Event.waitingEv agentId true] else [])

/-- The `/events` new-subscriber snapshot: live agents first, then every
stored-but-offline profile as an offline-marked `spawn` (the
`getAllProfiles()` entry carries no `clan`, hence `clan` is `null`), then
one `building:state` per stored building. -/
def snapshotEvents (s : ServerState) : List Event :=
  ((s.agents.map (liveSnapshotEvents s)).flatten) ++
  ((AgentStore.getAllProfiles s.store).filterMap (fun p =>
    if (alookup s.agents p.agentId).isSome then none
    else some (Event.spawn p.agentId p.name "" (natOr p.level 1) p.xp
      p.parentId none true))) ++
  ((BuildingStore.getAllProfiles s.bstore).map (fun bp =>
    Event.buildingState bp.buildingId bp.level bp.xp))

/-- A mutating operation on the bridge state: an inbound heartbeat or a
tick of the auto-despawn sweep. -/
inductive Op where
  | hb (now : Nat) (h : Heartbeat)
  | sweep (now : Nat)
deriving DecidableEq, Repr

def applyOp (s : ServerState) : Op → ServerState × List Event
  | Op.hb now h => heartbeat s now h
  | Op.sweep now => despawnSweep s now

/-- Run a sequence of operations, concatenating all broadcast events. -/
def runOps (s : ServerState) : List Op → ServerState × List Event
  | [] => (s, [])
  | op :: rest =>
    let r1 := applyOp s op
    let r2 := runOps r1.1 rest
    (r2.1, r1.2 ++ r2.2)

end Bridge

/-! ## Shared helper lemmas -/

theorem AgentStore.agent_getLevel_eq {xp : Int} {r : LevelEntry}
    (h : scanLast AgentStore.LEVELS xp = some r) :
    AgentStore.getLevel xp = r := by
  unfold AgentStore.getLevel
  rw [h]

theorem BuildingStore.building_getLevel_eq {xp : Int} {bid : String} {r : LevelEntry}
    (h : scanLast (BuildingStore.levelsFor bid) xp = some r) :
    BuildingStore.getLevel xp bid = r := by
  unfold BuildingStore.getLevel
  rw [h]

theorem AgentStore.alookup_recordToolUse (st : AgentStore.Store)
    (id id' : String) (now : Nat) :
    alookup (AgentStore.recordToolUse st id now) id' =
      if id' = id then
        (alookup st id').map
          (fun p => { p with toolCalls := p.toolCalls + 1, lastSeen := now })
      else alookup st id' := by
  simp [AgentStore.recordToolUse, alookup_amodify]

theorem AgentStore.alookup_recordBytes (st : AgentStore.Store)
    (id id' : String) (a b : Int) (now : Nat) :
    alookup (AgentStore.recordBytes st id a b now) id' =
      if id' = id then
        (alookup st id').map
          (fun p => { p with totalInputBytes := p.totalInputBytes + a,
                             totalOutputBytes := p.totalOutputBytes + b,
                             lastSeen := now })
      else alookup st id' := by
  simp [AgentStore.recordBytes, alookup_amodify]

theorem AgentStore.alookup_recordSession (st : AgentStore.Store)
    (id id' : String) :
    alookup (AgentStore.recordSession st id) id' =
      if id' = id then
        (alookup st id').map (fun p => { p with sessions := p.sessions + 1 })
      else alookup st id' := by
  simp [AgentStore.recordSession, alookup_amodify]

theorem AgentStore.alookup_recordSubAgentSpawn (st : AgentStore.Store)
    (id id' : String) :
    alookup (AgentStore.recordSubAgentSpawn st id) id' =
      if id' = id then
        (alookup st id').map
          (fun p => { p with subAgentsSpawned := p.subAgentsSpawned + 1 })
      else alookup st id' := by
  simp [AgentStore.recordSubAgentSpawn, alookup_amodify]

theorem AgentStore.alookup_recordActivity (st : AgentStore.Store)
    (id id' activity detail : String) (now : Nat) :
    alookup (AgentStore.recordActivity st id activity detail now) id' =
      if id' = id then
        (alookup st id').map (fun p =>
          let ra := p.recentActivity ++ [⟨activity, detail, now⟩]
          { p with recentActivity :=
              if ra.length > AgentStore.MAX_RECENT then
                ra.drop (ra.length - AgentStore.MAX_RECENT)
              else ra })
      else alookup st id' := by
  simp [AgentStore.recordActivity, alookup_amodify]

/-- Counter preservation through `getProfile` for an id that already has a
profile: none of the five counters change. -/
theorem AgentStore.getProfile_counters (st : AgentStore.Store)
    (id id' dn : String) (par cl : Option String) (now : Nat)
    (p : AgentStore.Profile) (hp : alookup st id' = some p) :
    ∃ q, alookup (AgentStore.getProfile st id dn par cl now) id' = some q ∧
      q.toolCalls = p.toolCalls ∧
      q.totalInputBytes = p.totalInputBytes ∧
      q.totalOutputBytes = p.totalOutputBytes ∧
      q.sessions = p.sessions ∧
      q.subAgentsSpawned = p.subAgentsSpawned ∧
      q.totalBytes = p.totalBytes := by
  unfold AgentStore.getProfile
  by_cases hid : id' = id
  · subst hid
    rw [hp]
    dsimp only
    by_cases hpar : optTruthy par ∧ ¬ optTruthy p.parentId
    · rw [if_pos hpar]
      by_cases hdn : dn ≠ ""
      · rw [if_pos hdn]
        rw [alookup_amodify, if_pos rfl, alookup_amodify, if_pos rfl, hp]
        refine ⟨_, rfl, ?_, ?_, ?_, ?_, ?_, ?_⟩ <;>
          (dsimp only [Option.map]; split <;> rfl)
      · rw [if_neg hdn]
        rw [alookup_amodify, if_pos rfl, hp]
        exact ⟨_, rfl, rfl, rfl, rfl, rfl, rfl, rfl⟩
    · rw [if_neg hpar]
      by_cases hdn : dn ≠ ""
      · rw [if_pos hdn]
        rw [alookup_amodify, if_pos rfl, hp]
        refine ⟨_, rfl, ?_, ?_, ?_, ?_, ?_, ?_⟩ <;>
          (dsimp only [Option.map]; split <;> rfl)
      · rw [if_neg hdn]
        exact ⟨p, hp, rfl, rfl, rfl, rfl, rfl, rfl⟩
  · have step1 :
        ∀ st1 : AgentStore.Store,
          alookup st1 id' = some p →
          ∃ q, alookup
            (if dn ≠ "" then
              amodify st1 id (fun q =>
                if q.name ≠ dn then { q with name := dn } else q)
            else st1) id' = some q ∧
            q.toolCalls = p.toolCalls ∧
            q.totalInputBytes = p.totalInputBytes ∧
            q.totalOutputBytes = p.totalOutputBytes ∧
            q.sessions = p.sessions ∧
            q.subAgentsSpawned = p.subAgentsSpawned ∧
            q.totalBytes = p.totalBytes := by
      intro st1 h1
      by_cases hdn : dn ≠ ""
      · rw [if_pos hdn, alookup_amodify, if_neg hid, h1]
        exact ⟨p, rfl, rfl, rfl, rfl, rfl, rfl, rfl⟩
      · rw [if_neg hdn]
        exact ⟨p, h1, rfl, rfl, rfl, rfl, rfl, rfl⟩
    cases hlook : alookup st id with
    | none =>
      dsimp only
      apply step1
      rw [alookup_aset, if_neg hid]
      exact hp
    | some q0 =>
      dsimp only
      by_cases hpar : optTruthy par ∧ ¬ optTruthy q0.parentId
      · rw [if_pos hpar]
        apply step1
        rw [alookup_amodify, if_neg hid]
        exact hp
      · rw [if_neg hpar]
        exact step1 _ hp

/-- `getProfile` gives the (non-empty) supplied name to the target id. -/
theorem AgentStore.getProfile_name (st : AgentStore.Store) (id dn : String)
    (par cl : Option String) (now : Nat) (hdn : dn ≠ "") :
    ∃ q, alookup (AgentStore.getProfile st id dn par cl now) id = some q ∧
      q.name = dn := by
  unfold AgentStore.getProfile
  cases hlook : alookup st id with
  | none =>
    dsimp only
    rw [if_pos hdn, alookup_amodify, if_pos rfl, alookup_aset, if_pos rfl]
    exact ⟨_, rfl, by dsimp only [Option.map]; split <;> simp_all⟩
  | some q0 =>
    dsimp only
    rw [if_pos hdn, alookup_amodify, if_pos rfl]
    by_cases hpar : optTruthy par ∧ ¬ optTruthy q0.parentId
    · rw [if_pos hpar, alookup_amodify, if_pos rfl, hlook]
      exact ⟨_, rfl, by dsimp only [Option.map]; split <;> simp_all⟩
    · rw [if_neg hpar, hlook]
      exact ⟨_, rfl, by dsimp only [Option.map]; split <;> simp_all⟩

/-- Does this (normalized) activity value record a tool call in the
existing-agent path (`activity && activity !== 'idle'`)? -/
def Bridge.toolFlag : Option String → Bool
  | some a => a ≠ "idle"
  | none => false

/-- Event filter: an `agent:achievement` for this agent at this tool-call
count. -/
def Bridge.achFor (agentId : String) (m : Nat) : Bridge.Event → Bool
  | Bridge.Event.achievement aid _ tc => aid = agentId ∧ tc = m
  | _ => false

/-- Event filter: an `agent:work` event for this agent. -/
def Bridge.workFor (agentId : String) : Bridge.Event → Bool
  | Bridge.Event.work aid _ _ _ => aid = agentId
  | _ => false

/-- Event filter: an `agent:levelup` event (the levelup class). -/
def Bridge.isLevelup : Bridge.Event → Bool
  | Bridge.Event.levelup _ _ => true
  | _ => false

/-- The `type` discriminator string of an event, as on the JS wire. -/
def Bridge.evTag : Bridge.Event → String
  | Bridge.Event.spawn .. => "agent:spawn"
  | Bridge.Event.work .. => "agent:work"
  | Bridge.Event.tokens .. => "agent:tokens"
  | Bridge.Event.xpEv .. => "agent:xp"
  | Bridge.Event.levelup .. => "agent:levelup"
  | Bridge.Event.achievement .. => "agent:achievement"
  | Bridge.Event.waitingEv .. => "agent:waiting"
  | Bridge.Event.despawnEv .. => "agent:despawn"
  | Bridge.Event.buildingXP .. => "building:xp"
  | Bridge.Event.buildingState .. => "building:state"

theorem Bridge.workFor_tokens (aid aid2 : String) (a b : Int) :
    Bridge.workFor aid (Bridge.Event.tokens aid2 a b) = false := rfl

theorem Bridge.workFor_xpEv (aid aid2 : String) (lv : Nat) (xp : Int) :
    Bridge.workFor aid (Bridge.Event.xpEv aid2 lv xp) = false := rfl

theorem Bridge.workFor_waitingEv (aid aid2 : String) (w : Bool) :
    Bridge.workFor aid (Bridge.Event.waitingEv aid2 w) = false := rfl

theorem Bridge.workFor_achievement (aid aid2 nm : String) (tc : Nat) :
    Bridge.workFor aid (Bridge.Event.achievement aid2 nm tc) = false := rfl

theorem Bridge.workFor_work (aid aid2 a d tb : String) :
    Bridge.workFor aid (Bridge.Event.work aid2 a d tb) =
      decide (aid2 = aid) := rfl

theorem filter_if {c : Prop} [Decidable c] {α : Type} (f : α → Bool)
    (l1 l2 : List α) :
    (if c then l1 else l2).filter f =
      if c then l1.filter f else l2.filter f := by
  split <;> rfl

theorem alookup_if {α : Type} {c : Prop} [Decidable c]
    (m1 m2 : List (String × α)) (k : String) :
    alookup (if c then m1 else m2) k =
      if c then alookup m1 k else alookup m2 k := by
  split <;> rfl

theorem Bridge.updateBuildingXP_store (s : Bridge.ServerState) (b : String) :
    (Bridge.updateBuildingXP s b).1.store = s.store := by
  unfold Bridge.updateBuildingXP
  cases BuildingStore.getEnrichedProfile s.bstore b <;> rfl

theorem Bridge.updateBuildingXP_agents (s : Bridge.ServerState) (b : String) :
    (Bridge.updateBuildingXP s b).1.agents = s.agents := by
  unfold Bridge.updateBuildingXP
  cases BuildingStore.getEnrichedProfile s.bstore b <;> rfl

theorem Bridge.updateBuildingXP_names (s : Bridge.ServerState) (b : String) :
    (Bridge.updateBuildingXP s b).1.names = s.names := by
  unfold Bridge.updateBuildingXP
  cases BuildingStore.getEnrichedProfile s.bstore b <;> rfl

/-- The events emitted by `updateBuildingXP` are all `building:xp`
events. -/
theorem Bridge.updateBuildingXP_events (s : Bridge.ServerState) (b : String)
    (f : Bridge.Event → Bool)
    (hf : ∀ bid lv xp, f (Bridge.Event.buildingXP bid lv xp) = false) :
    (Bridge.updateBuildingXP s b).2.filter f = [] := by
  unfold Bridge.updateBuildingXP
  cases BuildingStore.getEnrichedProfile s.bstore b with
  | none => rfl
  | some bp => simp [List.filter, hf]

/-- Observable: the stored tool-call count of an agent. -/
def AgentStore.toolCallsOf (st : AgentStore.Store) (id : String) :
    Option Nat :=
  (alookup st id).map (fun p => p.toolCalls)

theorem AgentStore.toolCallsOf_recordBytes (st : AgentStore.Store)
    (id id' : String) (a b : Int) (now : Nat) :
    AgentStore.toolCallsOf (AgentStore.recordBytes st id a b now) id' =
      AgentStore.toolCallsOf st id' := by
  unfold AgentStore.toolCallsOf
  rw [AgentStore.alookup_recordBytes]
  split
  · cases alookup st id' <;> rfl
  · rfl

theorem AgentStore.toolCallsOf_recordSession (st : AgentStore.Store)
    (id id' : String) :
    AgentStore.toolCallsOf (AgentStore.recordSession st id) id' =
      AgentStore.toolCallsOf st id' := by
  unfold AgentStore.toolCallsOf
  rw [AgentStore.alookup_recordSession]
  split
  · cases alookup st id' <;> rfl
  · rfl

theorem AgentStore.toolCallsOf_recordSubAgentSpawn (st : AgentStore.Store)
    (id id' : String) :
    AgentStore.toolCallsOf (AgentStore.recordSubAgentSpawn st id) id' =
      AgentStore.toolCallsOf st id' := by
  unfold AgentStore.toolCallsOf
  rw [AgentStore.alookup_recordSubAgentSpawn]
  split
  · cases alookup st id' <;> rfl
  · rfl

theorem AgentStore.toolCallsOf_recordActivity (st : AgentStore.Store)
    (id id' activity detail : String) (now : Nat) :
    AgentStore.toolCallsOf
        (AgentStore.recordActivity st id activity detail now) id' =
      AgentStore.toolCallsOf st id' := by
  unfold AgentStore.toolCallsOf
  rw [AgentStore.alookup_recordActivity]
  split
  · cases alookup st id' <;> rfl
  · rfl

theorem AgentStore.toolCallsOf_recordToolUse (st : AgentStore.Store)
    (id id' : String) (now : Nat) :
    AgentStore.toolCallsOf (AgentStore.recordToolUse st id now) id' =
      if id' = id then
        (AgentStore.toolCallsOf st id').map (fun n => n + 1)
      else AgentStore.toolCallsOf st id' := by
  unfold AgentStore.toolCallsOf
  rw [AgentStore.alookup_recordToolUse]
  split
  · cases alookup st id' <;> rfl
  · rfl

/-- The enriched profile reports exactly the stored tool-call count. -/
theorem AgentStore.getEnrichedProfile_toolCalls (st : AgentStore.Store)
    (id : String) :
    (AgentStore.getEnrichedProfile st id).map (fun e => e.toolCalls) =
      AgentStore.toolCallsOf st id := by
  unfold AgentStore.getEnrichedProfile AgentStore.toolCallsOf
  cases alookup st id <;> rfl

theorem AgentStore.getEnrichedProfile_isSome (st : AgentStore.Store)
    (id : String) :
    (AgentStore.getEnrichedProfile st id).isSome = (alookup st id).isSome := by
  unfold AgentStore.getEnrichedProfile
  cases alookup st id <;> rfl

/-- After an existing-agent heartbeat the agents map is an in-place update
of the previous map at the heartbeat id. -/
theorem Bridge.hbExisting_agents
    (s : Bridge.ServerState) (now : Nat) (agentId : String)
    (ex : Bridge.LiveAgent) (activity : Option String)
    (detail project : String) (parentId : Option String) (inB outB : Int)
    (busy : Option Bool) (wIn ns : Bool) :
    ∃ ex', (Bridge.heartbeatExisting s now agentId ex activity detail project
      parentId inB outB busy wIn ns).1.agents = aset s.agents agentId ex' := by
  unfold Bridge.heartbeatExisting
  exact ⟨_, rfl⟩

/-- The stored tool-call count of the heartbeat agent after an
existing-agent heartbeat: incremented exactly when a non-idle activity was
supplied. -/
theorem Bridge.hbExisting_toolCallsOf
    (s : Bridge.ServerState) (now : Nat) (agentId : String)
    (ex : Bridge.LiveAgent) (activity : Option String)
    (detail project : String) (parentId : Option String) (inB outB : Int)
    (busy : Option Bool) (wIn ns : Bool) :
    AgentStore.toolCallsOf
        (Bridge.heartbeatExisting s now agentId ex activity detail project
          parentId inB outB busy wIn ns).1.store agentId =
      if Bridge.toolFlag activity then
        (AgentStore.toolCallsOf s.store agentId).map (fun n => n + 1)
      else AgentStore.toolCallsOf s.store agentId := by
  have h0 : AgentStore.toolCallsOf
      (match parentId with
        | some pid =>
          if ns = true then
            AgentStore.recordSession
              (AgentStore.recordSubAgentSpawn s.store pid) agentId
          else s.store
        | none => s.store) agentId =
      AgentStore.toolCallsOf s.store agentId := by
    rcases parentId with _ | pid
    · rfl
    · by_cases hns : ns = true
      · simp [hns, AgentStore.toolCallsOf_recordSession,
          AgentStore.toolCallsOf_recordSubAgentSpawn]
      · simp [hns]
  unfold Bridge.heartbeatExisting
  dsimp only
  simp only [apply_ite Bridge.ServerState.store,
    Bridge.updateBuildingXP_store,
    apply_ite (fun st => AgentStore.toolCallsOf st agentId),
    AgentStore.toolCallsOf_recordActivity,
    AgentStore.toolCallsOf_recordToolUse,
    AgentStore.toolCallsOf_recordBytes,
    AgentStore.toolCallsOf_recordSession,
    AgentStore.toolCallsOf_recordSubAgentSpawn,
    if_pos rfl, ite_self, h0]
  rcases activity with _ | a
  · simp [Bridge.toolFlag]
  · simp only [Bridge.toolFlag]
    by_cases ha : a = "idle"
    · simp [ha]
    · simp [ha]

/-- The achievement events broadcast by an existing-agent heartbeat:
exactly one, for the updated tool-call count, when a tool-recording
activity lands the count on a milestone. -/
theorem Bridge.hbExisting_achFilter
    (s : Bridge.ServerState) (now : Nat) (agentId : String)
    (ex : Bridge.LiveAgent) (activity : Option String)
    (detail project : String) (parentId : Option String) (inB outB : Int)
    (busy : Option Bool) (wIn ns : Bool) (k : Nat)
    (htc : AgentStore.toolCallsOf s.store agentId = some k) (m : Nat) :
    ((Bridge.heartbeatExisting s now agentId ex activity detail project
        parentId inB outB busy wIn ns).2.filter
      (Bridge.achFor agentId m)).length =
      if Bridge.toolFlag activity = true ∧ k + 1 = m ∧
          m ∈ Bridge.MILESTONES then 1 else 0 := by
  have h0 : AgentStore.toolCallsOf
      (match parentId with
        | some pid =>
          if ns = true then
            AgentStore.recordSession
              (AgentStore.recordSubAgentSpawn s.store pid) agentId
          else s.store
        | none => s.store) agentId =
      AgentStore.toolCallsOf s.store agentId := by
    rcases parentId with _ | pid
    · rfl
    · by_cases hns : ns = true
      · simp [hns, AgentStore.toolCallsOf_recordSession,
          AgentStore.toolCallsOf_recordSubAgentSpawn]
      · simp [hns]
  unfold Bridge.heartbeatExisting
  dsimp only
  simp only [List.filter_append, List.length_append, filter_if,
    apply_ite Bridge.ServerState.store, Bridge.updateBuildingXP_store,
    List.filter_nil, ite_self]
  rcases activity with _ | a
  · simp [Bridge.toolFlag, List.filter, Bridge.achFor,
      Bridge.updateBuildingXP_events]
    intro a ha
    split at ha <;> simp_all [Bridge.achFor]
  · simp only [Bridge.toolFlag]
    by_cases hidle : a = "idle"
    · simp [hidle, List.filter, Bridge.achFor,
        Bridge.updateBuildingXP_events]
      intro a2 ha2
      split at ha2 <;> simp_all [Bridge.achFor]
    · simp [hidle, List.filter, Bridge.achFor,
        Bridge.updateBuildingXP_events]
      split
      · rename_i up heq
        have h1 := congrArg (Option.map (fun e => e.toolCalls)) heq
        rw [AgentStore.getEnrichedProfile_toolCalls] at h1
        simp only [AgentStore.toolCallsOf_recordToolUse,
          AgentStore.toolCallsOf_recordBytes, h0,
          apply_ite (fun st => AgentStore.toolCallsOf st agentId),
          ite_self, htc, Option.map_some] at h1
        simp only [if_true, Option.map_some, Option.some.injEq] at h1
        try simp only [heq]
        by_cases hmil : up.toolCalls ∈ Bridge.MILESTONES <;>
          by_cases hm : up.toolCalls = m <;>
            simp_all [Bridge.achFor, List.filter]
      · rename_i heq
        have h1 := congrArg (Option.map (fun e => e.toolCalls)) heq
        rw [AgentStore.getEnrichedProfile_toolCalls] at h1
        simp only [AgentStore.toolCallsOf_recordToolUse,
          AgentStore.toolCallsOf_recordBytes, h0,
          apply_ite (fun st => AgentStore.toolCallsOf st agentId),
          ite_self, htc, Option.map_some] at h1
        simp at h1

/-- A heartbeat whose id maps to a live agent takes the existing-agent
branch. -/
theorem Bridge.heartbeat_existing (s : Bridge.ServerState) (now : Nat)
    (hb : Bridge.Heartbeat) (agentId : String) (ex : Bridge.LiveAgent)
    (hid : Bridge.normalizeId
      (if hb.agent = "" then "Unknown Agent" else hb.agent) = agentId)
    (hex : alookup s.agents agentId = some ex) :
    Bridge.heartbeat s now hb =
      Bridge.heartbeatExisting s now agentId ex
        (Bridge.normActivity hb.activity) hb.detail hb.project
        (Bridge.normParent hb.parentAgent) hb.inputBytes hb.outputBytes
        hb.busy hb.waiting hb.newSpawn := by
  unfold Bridge.heartbeat
  dsimp only
  rw [hid, hex]

theorem AgentStore.toolCallsOf_some {st : AgentStore.Store} {id : String}
    {n : Nat} (h : AgentStore.toolCallsOf st id = some n) :
    ∃ p, alookup st id = some p ∧ p.toolCalls = n := by
  unfold AgentStore.toolCallsOf at h
  cases hl : alookup st id with
  | none => rw [hl] at h; exact absurd h (by simp)
  | some p => rw [hl] at h; exact ⟨p, rfl, Option.some.inj h⟩

/-- An operation that is a heartbeat normalizing to the given agent id. -/
def Bridge.hbFor (agentId : String) : Bridge.Op → Prop
  | Bridge.Op.hb _ h =>
    Bridge.normalizeId (if h.agent = "" then "Unknown Agent" else h.agent)
      = agentId
  | Bridge.Op.sweep _ => False

theorem Bridge.updateLiveAgent_activity_none (ex0 : Bridge.LiveAgent)
    (now : Nat) (detail project : String) (busy : Option Bool)
    (wIn : Bool) :
    (Bridge.updateLiveAgent ex0 now none detail project busy wIn).activity =
      ex0.activity := by
  unfold Bridge.updateLiveAgent
  dsimp only
  rcases busy with _ | b <;> split_ifs <;> rfl

/-- An existing-agent heartbeat with a null activity keeps the stored
activity, and broadcasts a work event exactly when a fresh non-empty
detail is supplied. -/
theorem Bridge.hbExisting_nullActivity
    (s : Bridge.ServerState) (now : Nat) (agentId : String)
    (ex : Bridge.LiveAgent) (detail project : String)
    (parentId : Option String) (inB outB : Int)
    (busy : Option Bool) (wIn ns : Bool) :
    (∃ ex', alookup (Bridge.heartbeatExisting s now agentId ex none detail
        project parentId inB outB busy wIn ns).1.agents agentId = some ex' ∧
      ex'.activity = ex.activity) ∧
    ((Bridge.heartbeatExisting s now agentId ex none detail project
        parentId inB outB busy wIn ns).2.filter (Bridge.workFor agentId)
      ≠ [] ↔ (detail ≠ "" ∧ ex.detail ≠ detail)) := by
  unfold Bridge.heartbeatExisting
  dsimp only
  generalize hE0 : (match parentId with
    | some pid =>
      if ns = true then
        if some pid ≠ ex.parentId then { ex with parentId := some pid }
        else ex
      else ex
    | none => ex) = ex0
  have hact : ex0.activity = ex.activity := by
    rw [← hE0]
    rcases parentId with _ | pid <;> dsimp only <;> split_ifs <;> rfl
  have hdet : ex0.detail = ex.detail := by
    rw [← hE0]
    rcases parentId with _ | pid <;> dsimp only <;> split_ifs <;> rfl
  have h6 : (Bridge.updateLiveAgent ex0 now none detail project busy
      wIn).activity = ex.activity := by
    rw [Bridge.updateLiveAgent_activity_none, hact]
  constructor
  · refine ⟨_, by rw [alookup_aset, if_pos rfl], ?_⟩
    split_ifs <;> exact h6
  · simp only [List.filter_append, filter_if,
      apply_ite Bridge.ServerState.store, Bridge.updateBuildingXP_store,
      List.filter_nil, ite_self]
    simp [List.filter, Bridge.workFor, Bridge.updateBuildingXP_events, hdet]
    split <;> simp [List.filter, Bridge.workFor, hdet]

instance (agentId : String) (op : Bridge.Op) :
    Decidable (Bridge.hbFor agentId op) := by
  cases op <;> simp only [Bridge.hbFor] <;> infer_instance

theorem alookup_mem {α : Type} {m : List (String × α)} {k : String} {v : α}
    (h : alookup m k = some v) : (k, v) ∈ m := by
  induction m with
  | nil => simp [alookup] at h
  | cons hd tl ih =>
    rw [alookup] at h
    by_cases hh : hd.1 = k
    · rw [if_pos hh] at h
      have h2 := Option.some.inj h
      have hkv : (k, v) = hd := by
        cases hd
        cases hh
        cases h2
        rfl
      rw [hkv]
      exact List.mem_cons_self _ _
    · rw [if_neg hh] at h
      exact List.mem_cons_of_mem _ (ih h)

/-- The sweep never touches the durable agent store. -/
theorem Bridge.despawnSweep_store (s : Bridge.ServerState) (now : Nat) :
    (Bridge.despawnSweep s now).1.store = s.store := by
  unfold Bridge.despawnSweep
  dsimp only
  generalize s.agents.filter (fun p => now - p.2.lastSeen > Bridge.DESPAWN_TIMEOUT) = l
  induction l generalizing s with
  | nil => rfl
  | cons hd tl ih => rw [List.foldl_cons]; exact ih _

/-- The sweep never touches the building store. -/
theorem Bridge.despawnSweep_bstore (s : Bridge.ServerState) (now : Nat) :
    (Bridge.despawnSweep s now).1.bstore = s.bstore := by
  unfold Bridge.despawnSweep
  dsimp only
  generalize s.agents.filter (fun p => now - p.2.lastSeen > Bridge.DESPAWN_TIMEOUT) = l
  induction l generalizing s with
  | nil => rfl
  | cons hd tl ih => rw [List.foldl_cons]; exact ih _

theorem Bridge.sweepFold_agents_none
    (l : List (String × Bridge.LiveAgent)) (acc : Bridge.ServerState)
    (k : String)
    (h : alookup acc.agents k = none ∨ ∃ q ∈ l, q.1 = k) :
    alookup ((l.foldl
      (fun acc p =>
        { acc with agents := aerase acc.agents p.1,
                   names := DwarfNames.releaseName acc.names p.1 }) acc).agents)
      k = none := by
  induction l generalizing acc with
  | nil =>
    rcases h with h | ⟨q, hq, _⟩
    · exact h
    · simp at hq
  | cons hd tl ih =>
    rw [List.foldl_cons]
    apply ih
    rcases h with h | ⟨q, hq, hqk⟩
    · left
      rw [alookup_aerase]
      split <;> [rfl; exact h]
    · rcases List.mem_cons.mp hq with rfl | hq'
      · left
        rw [alookup_aerase, if_pos hqk.symm]
      · right
        exact ⟨q, hq', hqk⟩

/-- A live agent past the despawn timeout is gone after the sweep. -/
theorem Bridge.despawnSweep_removes (s : Bridge.ServerState) (now : Nat)
    (agentId : String) (ex : Bridge.LiveAgent)
    (hlive : alookup s.agents agentId = some ex)
    (hto : now - ex.lastSeen > Bridge.DESPAWN_TIMEOUT) :
    alookup (Bridge.despawnSweep s now).1.agents agentId = none := by
  unfold Bridge.despawnSweep
  dsimp only
  apply Bridge.sweepFold_agents_none
  right
  refine ⟨(agentId, ex), ?_, rfl⟩
  rw [List.mem_filter]
  exact ⟨alookup_mem hlive, by simpa using hto⟩

/-- A heartbeat whose id maps to no live agent takes the spawn branch. -/
theorem Bridge.heartbeat_spawn_dispatch (s : Bridge.ServerState) (now : Nat)
    (hb : Bridge.Heartbeat) (agentId : String)
    (hid : Bridge.normalizeId
      (if hb.agent = "" then "Unknown Agent" else hb.agent) = agentId)
    (hnone : alookup s.agents agentId = none) :
    Bridge.heartbeat s now hb =
      Bridge.heartbeatSpawn s now agentId
        (if hb.agent = "" then "Unknown Agent" else hb.agent)
        (Bridge.normActivity hb.activity) hb.detail hb.project
        (Bridge.normParent hb.parentAgent) hb.inputBytes hb.outputBytes
        hb.busy hb.waiting := by
  unfold Bridge.heartbeat
  dsimp only
  rw [hid, hnone]

/-- The spawn path installs a live session under the heartbeat id whose
display name is the stored profile's (non-empty) persisted name: the
stored name takes precedence over a fresh allocator assignment. -/
theorem Bridge.hbSpawn_name (s : Bridge.ServerState) (now : Nat)
    (agentId rawName : String) (activity : Option String)
    (detail project : String) (parentId : Option String) (inB outB : Int)
    (busy : Option Bool) (wIn : Bool) (p : AgentStore.Profile)
    (hp : alookup s.store agentId = some p) (hpn : p.name ≠ "") :
    ∃ ag, alookup (Bridge.heartbeatSpawn s now agentId rawName activity
        detail project parentId inB outB busy wIn).1.agents agentId =
      some ag ∧ ag.name = p.name := by
  have hstored : AgentStore.getStoredName s.store agentId = some p.name := by
    unfold AgentStore.getStoredName
    rw [hp]
    dsimp only
    rw [if_neg hpn]
  unfold Bridge.heartbeatSpawn
  dsimp only
  rw [Bridge.updateBuildingXP_agents]
  dsimp only
  rw [hstored]
  dsimp only
  rw [alookup_aset, if_pos rfl]
  exact ⟨_, rfl, rfl⟩

/-- Pointwise comparison of the five accumulating counters of a profile. -/
def AgentStore.countersLe (p q : AgentStore.Profile) : Prop :=
  p.toolCalls ≤ q.toolCalls ∧ p.totalInputBytes ≤ q.totalInputBytes ∧
  p.totalOutputBytes ≤ q.totalOutputBytes ∧ p.sessions ≤ q.sessions ∧
  p.subAgentsSpawned ≤ q.subAgentsSpawned

/-- Store evolution: every profile persists and its counters never
decrease. -/
def AgentStore.storeLe (st st' : AgentStore.Store) : Prop :=
  ∀ id p, alookup st id = some p →
    ∃ q, alookup st' id = some q ∧ AgentStore.countersLe p q

theorem AgentStore.countersLe_refl (p : AgentStore.Profile) :
    AgentStore.countersLe p p := by
  unfold AgentStore.countersLe
  omega

theorem AgentStore.countersLe_trans {p q r : AgentStore.Profile}
    (h1 : AgentStore.countersLe p q) (h2 : AgentStore.countersLe q r) :
    AgentStore.countersLe p r := by
  unfold AgentStore.countersLe at h1 h2 ⊢
  omega

theorem AgentStore.storeLe_refl (st : AgentStore.Store) :
    AgentStore.storeLe st st :=
  fun _ p hp => ⟨p, hp, AgentStore.countersLe_refl p⟩

theorem AgentStore.storeLe_trans {a b c : AgentStore.Store}
    (h1 : AgentStore.storeLe a b) (h2 : AgentStore.storeLe b c) :
    AgentStore.storeLe a c := by
  intro id p hp
  obtain ⟨q, hq, hpq⟩ := h1 id p hp
  obtain ⟨r, hr, hqr⟩ := h2 id q hq
  exact ⟨r, hr, AgentStore.countersLe_trans hpq hqr⟩

theorem AgentStore.storeLe_recordToolUseStep {st X : AgentStore.Store}
    {id : String} {now : Nat} (h : AgentStore.storeLe st X) :
    AgentStore.storeLe st (AgentStore.recordToolUse X id now) := by
  refine AgentStore.storeLe_trans h ?_
  intro id' p hp
  rw [AgentStore.alookup_recordToolUse]
  by_cases he : id' = id
  · rw [if_pos he, hp]
    refine ⟨_, rfl, ?_⟩
    unfold AgentStore.countersLe
    dsimp
    omega
  · rw [if_neg he]
    exact ⟨p, hp, AgentStore.countersLe_refl p⟩

theorem AgentStore.storeLe_recordSessionStep {st X : AgentStore.Store}
    {id : String} (h : AgentStore.storeLe st X) :
    AgentStore.storeLe st (AgentStore.recordSession X id) := by
  refine AgentStore.storeLe_trans h ?_
  intro id' p hp
  rw [AgentStore.alookup_recordSession]
  by_cases he : id' = id
  · rw [if_pos he, hp]
    refine ⟨_, rfl, ?_⟩
    unfold AgentStore.countersLe
    dsimp
    omega
  · rw [if_neg he]
    exact ⟨p, hp, AgentStore.countersLe_refl p⟩

theorem AgentStore.storeLe_recordSubAgentSpawnStep {st X : AgentStore.Store}
    {id : String} (h : AgentStore.storeLe st X) :
    AgentStore.storeLe st (AgentStore.recordSubAgentSpawn X id) := by
  refine AgentStore.storeLe_trans h ?_
  intro id' p hp
  rw [AgentStore.alookup_recordSubAgentSpawn]
  by_cases he : id' = id
  · rw [if_pos he, hp]
    refine ⟨_, rfl, ?_⟩
    unfold AgentStore.countersLe
    dsimp
    omega
  · rw [if_neg he]
    exact ⟨p, hp, AgentStore.countersLe_refl p⟩

theorem AgentStore.storeLe_recordActivityStep {st X : AgentStore.Store}
    {id activity detail : String} {now : Nat}
    (h : AgentStore.storeLe st X) :
    AgentStore.storeLe st
      (AgentStore.recordActivity X id activity detail now) := by
  refine AgentStore.storeLe_trans h ?_
  intro id' p hp
  rw [AgentStore.alookup_recordActivity]
  by_cases he : id' = id
  · rw [if_pos he, hp]
    refine ⟨_, rfl, ?_⟩
    unfold AgentStore.countersLe
    dsimp
    omega
  · rw [if_neg he]
    exact ⟨p, hp, AgentStore.countersLe_refl p⟩

theorem AgentStore.storeLe_recordBytesStep {st X : AgentStore.Store}
    {id : String} {a b : Int} {now : Nat} (ha : 0 ≤ a) (hb : 0 ≤ b)
    (h : AgentStore.storeLe st X) :
    AgentStore.storeLe st (AgentStore.recordBytes X id a b now) := by
  refine AgentStore.storeLe_trans h ?_
  intro id' p hp
  rw [AgentStore.alookup_recordBytes]
  by_cases he : id' = id
  · rw [if_pos he, hp]
    refine ⟨_, rfl, ?_⟩
    unfold AgentStore.countersLe
    dsimp
    omega
  · rw [if_neg he]
    exact ⟨p, hp, AgentStore.countersLe_refl p⟩

theorem AgentStore.storeLe_getProfileStep {st X : AgentStore.Store}
    {id dn : String} {par cl : Option String} {now : Nat}
    (h : AgentStore.storeLe st X) :
    AgentStore.storeLe st (AgentStore.getProfile X id dn par cl now) := by
  refine AgentStore.storeLe_trans h ?_
  intro id' p hp
  obtain ⟨q, hq, h1, h2, h3, h4, h5, _⟩ :=
    AgentStore.getProfile_counters X id id' dn par cl now p hp
  refine ⟨q, hq, ?_⟩
  unfold AgentStore.countersLe
  omega

/-- The spawn path only ever adds to the stored counters. -/
theorem Bridge.hbSpawn_storeLe (s : Bridge.ServerState) (now : Nat)
    (agentId rawName : String) (activity : Option String)
    (detail project : String) (parentId : Option String) (inB outB : Int)
    (busy : Option Bool) (wIn : Bool) (hin : 0 ≤ inB) (hout : 0 ≤ outB) :
    AgentStore.storeLe s.store (Bridge.heartbeatSpawn s now agentId rawName
      activity detail project parentId inB outB busy wIn).1.store := by
  unfold Bridge.heartbeatSpawn
  dsimp only
  rw [Bridge.updateBuildingXP_store]
  dsimp only
  rcases parentId with _ | pid <;>
    (dsimp only
     split_ifs <;>
       (repeat
         first
         | exact AgentStore.storeLe_refl _
         | exact AgentStore.storeLe_getProfileStep (AgentStore.storeLe_refl _)
         | apply AgentStore.storeLe_recordActivityStep
         | apply AgentStore.storeLe_recordSubAgentSpawnStep
         | apply AgentStore.storeLe_recordBytesStep hin hout
         | apply AgentStore.storeLe_recordToolUseStep
         | apply AgentStore.storeLe_recordSessionStep))

/-- The existing-agent path only ever adds to the stored counters. -/
theorem Bridge.hbExisting_storeLe (s : Bridge.ServerState) (now : Nat)
    (agentId : String) (ex : Bridge.LiveAgent) (activity : Option String)
    (detail project : String) (parentId : Option String) (inB outB : Int)
    (busy : Option Bool) (wIn ns : Bool) (hin : 0 ≤ inB) (hout : 0 ≤ outB) :
    AgentStore.storeLe s.store (Bridge.heartbeatExisting s now agentId ex
      activity detail project parentId inB outB busy wIn ns).1.store := by
  unfold Bridge.heartbeatExisting
  dsimp only
  simp only [apply_ite Bridge.ServerState.store, Bridge.updateBuildingXP_store,
    ite_self]
  rcases parentId with _ | pid <;>
    (dsimp only
     split_ifs <;>
       (repeat
         first
         | exact AgentStore.storeLe_refl _
         | apply AgentStore.storeLe_recordActivityStep
         | apply AgentStore.storeLe_recordSubAgentSpawnStep
         | apply AgentStore.storeLe_recordBytesStep hin hout
         | apply AgentStore.storeLe_recordToolUseStep
         | apply AgentStore.storeLe_recordSessionStep))

/-- Byte inputs of an operation are nonnegative (the sweep trivially so). -/
def Bridge.bytesNonneg : Bridge.Op → Prop
  | Bridge.Op.hb _ h => 0 ≤ h.inputBytes ∧ 0 ≤ h.outputBytes
  | Bridge.Op.sweep _ => True

instance (op : Bridge.Op) : Decidable (Bridge.bytesNonneg op) := by
  cases op <;> simp only [Bridge.bytesNonneg] <;> infer_instance

theorem Bridge.applyOp_storeLe (s : Bridge.ServerState) (op : Bridge.Op)
    (hop : Bridge.bytesNonneg op) :
    AgentStore.storeLe s.store (Bridge.applyOp s op).1.store := by
  rcases op with ⟨now, hb⟩ | now
  · obtain ⟨hin, hout⟩ := hop
    unfold Bridge.applyOp Bridge.heartbeat
    dsimp only
    split
    · exact Bridge.hbSpawn_storeLe _ _ _ _ _ _ _ _ _ _ _ _ hin hout
    · exact Bridge.hbExisting_storeLe _ _ _ _ _ _ _ _ _ _ _ _ _ hin hout
  · unfold Bridge.applyOp
    rw [Bridge.despawnSweep_store]
    exact AgentStore.storeLe_refl _

theorem alookup_none_forall {α : Type} {m : List (String × α)} {k : String}
    (h : alookup m k = none) : ∀ a ∈ m, a.1 ≠ k := by
  intro a ha hak
  have h2 := alookup_isSome_of_mem ha hak
  rw [h] at h2
  simp at h2

/-- Erasing a freshly-set binding restores the original map. -/
theorem aerase_aset_of_none {α : Type} (m : List (String × α)) (k : String)
    (v : α) (h : alookup m k = none) : aerase (aset m k v) k = m := by
  unfold aset
  by_cases hany : m.any (fun p => p.1 = k)
  · rcases List.any_eq_true.mp hany with ⟨p, hp, hpk⟩
    simp only [decide_eq_true_eq] at hpk
    exact absurd (alookup_none_forall h p hp) (by simp [hpk])
  · rw [if_neg hany]
    unfold aerase
    rw [List.filter_append]
    have h2 : m.filter (fun p => ¬ p.1 = k) = m := by
      rw [List.filter_eq_self]
      intro a ha
      simpa using alookup_none_forall h a ha
    rw [h2]
    simp

/-- Filtering out a name that is appended but absent from the base list
restores the base list. -/
theorem filter_append_fresh (l : List String) (n : String) (h : n ∉ l) :
    (l ++ [n]).filter (fun x => ¬ x = n) = l := by
  rw [List.filter_append]
  have h2 : l.filter (fun x => ¬ x = n) = l := by
    rw [List.filter_eq_self]
    intro a ha
    simp only [decide_not, Bool.not_eq_eq_eq_not, Bool.not_true,
      decide_eq_false_iff_not]
    rintro rfl
    exact h ha
  rw [h2]
  simp

namespace DwarfNames

theorem getD_eq_get {α : Type} (l : List α) (d : α) :
    ∀ (i : Nat) (h : i < l.length), l.getD i d = l.get ⟨i, h⟩ := by
  induction l with
  | nil => intro i h; simp at h
  | cons x xs ih =>
    intro i h
    cases i with
    | zero => rfl
    | succ j => exact ih j (by simpa using h)

theorem data_append (a b : String) : (a ++ b).data = a.data ++ b.data := by
  cases a
  cases b
  rfl

theorem PREFIXES_nodup : PREFIXES.Nodup := by decide

theorem SUFFIXES_nodup : SUFFIXES.Nodup := by decide

/-- No prefix syllable is a proper prefix of another: the syllable list is
prefix-free, which makes `prefix ++ suffix` uniquely decodable. -/
theorem PREFIXES_prefixFree :
    ∀ a ∈ PREFIXES, ∀ b ∈ PREFIXES, a.data.isPrefixOf b.data = true →
      a = b := by decide

theorem mkName_inj {p q p2 q2 : Nat} (hp : p < 30) (hq : q < 25)
    (hp2 : p2 < 30) (hq2 : q2 < 25)
    (heq : mkName p q = mkName p2 q2) : p = p2 ∧ q = q2 := by
  have hpl : p < PREFIXES.length := by exact hp
  have hp2l : p2 < PREFIXES.length := by exact hp2
  have hql : q < SUFFIXES.length := by exact hq
  have hq2l : q2 < SUFFIXES.length := by exact hq2
  unfold mkName at heq
  rw [getD_eq_get _ _ _ hpl, getD_eq_get _ _ _ hp2l,
    getD_eq_get _ _ _ hql, getD_eq_get _ _ _ hq2l] at heq
  have hdata : (PREFIXES.get ⟨p, hpl⟩).data ++ (SUFFIXES.get ⟨q, hql⟩).data =
      (PREFIXES.get ⟨p2, hp2l⟩).data ++ (SUFFIXES.get ⟨q2, hq2l⟩).data := by
    have h2 := congrArg String.data heq
    rwa [data_append, data_append] at h2
  have hpre1 : (PREFIXES.get ⟨p, hpl⟩).data <+:
      (PREFIXES.get ⟨p2, hp2l⟩).data ++ (SUFFIXES.get ⟨q2, hq2l⟩).data := by
    rw [← hdata]
    exact List.prefix_append _ _
  have hpre2 : (PREFIXES.get ⟨p2, hp2l⟩).data <+:
      (PREFIXES.get ⟨p2, hp2l⟩).data ++ (SUFFIXES.get ⟨q2, hq2l⟩).data :=
    List.prefix_append _ _
  have hAA : PREFIXES.get ⟨p, hpl⟩ = PREFIXES.get ⟨p2, hp2l⟩ := by
    rcases le_total (PREFIXES.get ⟨p, hpl⟩).data.length
        (PREFIXES.get ⟨p2, hp2l⟩).data.length with hle | hle
    · exact PREFIXES_prefixFree _ (List.get_mem _ _ _) _ (List.get_mem _ _ _)
        (List.isPrefixOf_iff_prefix.mpr
          (List.prefix_of_prefix_length_le hpre1 hpre2 hle))
    · exact (PREFIXES_prefixFree _ (List.get_mem _ _ _) _ (List.get_mem _ _ _)
        (List.isPrefixOf_iff_prefix.mpr
          (List.prefix_of_prefix_length_le hpre2 hpre1 hle))).symm
  have hpeq : p = p2 := by
    have h3 := (List.Nodup.get_inj_iff PREFIXES_nodup).mp hAA
    exact Fin.mk.inj_iff.mp h3
  have hBB : (SUFFIXES.get ⟨q, hql⟩).data = (SUFFIXES.get ⟨q2, hq2l⟩).data := by
    rw [hAA] at hdata
    exact List.append_cancel_left hdata
  have hqeq : q = q2 := by
    have h4 : SUFFIXES.get ⟨q, hql⟩ = SUFFIXES.get ⟨q2, hq2l⟩ :=
      String.ext hBB
    have h5 := (List.Nodup.get_inj_iff SUFFIXES_nodup).mp h4
    exact Fin.mk.inj_iff.mp h5
  exact ⟨hpeq, hqeq⟩

/-- Pigeonhole over the 750 distinct candidate names: a used-name list
shorter than the full cross-product leaves some combination free. -/
theorem exists_free (used : List String) (hlen : used.length < 750) :
    ∃ p q, p < 30 ∧ q < 25 ∧ mkName p q ∉ used := by
  by_contra hall
  push_neg at hall
  have himg : (Finset.range 750).image (fun c => mkName (c / 25) (c % 25)) ⊆
      used.toFinset := by
    intro n hn
    rw [Finset.mem_image] at hn
    obtain ⟨c, hc, rfl⟩ := hn
    rw [Finset.mem_range] at hc
    rw [List.mem_toFinset]
    exact hall _ _ (by omega) (by omega)
  have hcard : ((Finset.range 750).image
      (fun c => mkName (c / 25) (c % 25))).card = 750 := by
    rw [Finset.card_image_of_injOn, Finset.card_range]
    intro a ha b hb hab
    rw [Finset.coe_range, Set.mem_Iio] at ha hb
    obtain ⟨h3, h4⟩ := mkName_inj (by omega) (by omega) (by omega) (by omega)
      hab
    omega
  have h5 : (750 : Nat) ≤ used.toFinset.card := by
    rw [← hcard]
    exact Finset.card_le_card himg
  have h6 := used.toFinset_card_le
  omega

theorem stepPos_idx :
    ∀ c < 750, stepPos (c / 25, c % 25) =
      ((c + 1) % 750 / 25, (c + 1) % 750 % 25) := by decide

theorem iterate_stepPos (k : Nat) :
    ∀ c < 750, stepPos^[k] (c / 25, c % 25) =
      ((c + k) % 750 / 25, (c + k) % 750 % 25) := by
  induction k with
  | zero =>
    intro c hc
    rw [Function.iterate_zero_apply, Nat.add_zero, Nat.mod_eq_of_lt hc]
  | succ k ih =>
    intro c hc
    rw [Function.iterate_succ_apply, stepPos_idx c hc,
      ih ((c + 1) % 750) (Nat.mod_lt _ (by omega))]
    have key : ((c + 1) % 750 + k) % 750 = (c + (k + 1)) % 750 := by
      rw [Nat.mod_add_mod]
      congr 1
      omega
    rw [key]

/-- The probing loop lands on an unused combination whenever one is
reachable within the given fuel. -/
theorem probe_free (used : List String) :
    ∀ (fuel : Nat) (pos : Nat × Nat),
      (∃ k ≤ fuel, mkName (stepPos^[k] pos).1 (stepPos^[k] pos).2 ∉ used) →
      mkName (probe used fuel pos).1 (probe used fuel pos).2 ∉ used := by
  intro fuel
  induction fuel with
  | zero =>
    intro pos h
    obtain ⟨k, hk, hfree⟩ := h
    have hk0 : k = 0 := by omega
    subst hk0
    rw [Function.iterate_zero_apply] at hfree
    unfold probe
    dsimp only
    split
    · exact hfree
    · exact hfree
  | succ f ih =>
    intro pos h
    obtain ⟨k, hk, hfree⟩ := h
    unfold probe
    dsimp only
    by_cases hmem : mkName pos.1 pos.2 ∈ used
    · rw [if_pos hmem]
      apply ih
      cases k with
      | zero =>
        rw [Function.iterate_zero_apply] at hfree
        exact absurd hmem hfree
      | succ j =>
        refine ⟨j, by omega, ?_⟩
        rw [← Function.iterate_succ_apply]
        exact hfree
    · rw [if_neg hmem]
      exact hmem

/-- A fresh assignment in a below-capacity allocator: the produced name is
unused, and the state change is exactly recording it. -/
theorem getDwarfName_fresh (st : NameState) (id : String)
    (hassigned : alookup st.assigned id = none)
    (hlen : st.usedNames.length < 750) :
    ∃ n, getDwarfName st id =
      (n, { assigned := aset st.assigned id n,
            usedNames := st.usedNames ++ [n] }) ∧ n ∉ st.usedNames := by
  obtain ⟨pT, qT, hpT, hqT, hfree⟩ := exists_free st.usedNames hlen
  have e1 : PREFIXES.length = 30 := rfl
  have e2 : SUFFIXES.length = 25 := rfl
  have hc0lt : 25 * (hashStr id % 30) + hashStr id / 256 % 25 < 750 := by
    have := Nat.mod_lt (hashStr id) (show 0 < 30 by omega)
    have := Nat.mod_lt (hashStr id / 256) (show 0 < 25 by omega)
    omega
  have hstart : (hashStr id % PREFIXES.length,
      hashStr id / 256 % SUFFIXES.length) =
      ((25 * (hashStr id % 30) + hashStr id / 256 % 25) / 25,
       (25 * (hashStr id % 30) + hashStr id / 256 % 25) % 25) := by
    rw [e1, e2]
    have h1 : (25 * (hashStr id % 30) + hashStr id / 256 % 25) / 25 =
        hashStr id % 30 := by omega
    have h2 : (25 * (hashStr id % 30) + hashStr id / 256 % 25) % 25 =
        hashStr id / 256 % 25 := by omega
    rw [h1, h2]
  have hreach : ∃ k ≤ maxAttempts,
      mkName ((stepPos^[k])
          ((25 * (hashStr id % 30) + hashStr id / 256 % 25) / 25,
           (25 * (hashStr id % 30) + hashStr id / 256 % 25) % 25)).1
        ((stepPos^[k])
          ((25 * (hashStr id % 30) + hashStr id / 256 % 25) / 25,
           (25 * (hashStr id % 30) + hashStr id / 256 % 25) % 25)).2 ∉
        st.usedNames := by
    refine ⟨(25 * pT + qT + 750 -
      (25 * (hashStr id % 30) + hashStr id / 256 % 25)) % 750, ?_, ?_⟩
    · have : maxAttempts = 750 := rfl
      omega
    · rw [iterate_stepPos _ _ hc0lt]
      have harr : (25 * (hashStr id % 30) + hashStr id / 256 % 25 +
          (25 * pT + qT + 750 -
            (25 * (hashStr id % 30) + hashStr id / 256 % 25)) % 750) % 750 =
          25 * pT + qT := by omega
      rw [harr]
      have h1 : (25 * pT + qT) / 25 = pT := by omega
      have h2 : (25 * pT + qT) % 25 = qT := by omega
      rw [h1, h2]
      exact hfree
  have hprobe := probe_free st.usedNames maxAttempts
    ((25 * (hashStr id % 30) + hashStr id / 256 % 25) / 25,
     (25 * (hashStr id % 30) + hashStr id / 256 % 25) % 25) hreach
  unfold getDwarfName
  rw [hassigned]
  dsimp only
  rw [hstart]
  refine ⟨_, ?_, hprobe⟩
  rw [if_neg hprobe]

/-- Assign a name to each identifier in order, collecting the names. -/
def assignNames : NameState → List String → List String × NameState
  | st, [] => ([], st)
  | st, id :: rest =>
    let r := getDwarfName st id
    let r2 := assignNames r.2 rest
    (r.1 :: r2.1, r2.2)

/-- The allocation invariant: over a below-capacity run on fresh distinct
identifiers, the produced names are distinct, none was used before, and
the used-name set only grows. -/
theorem assignNames_spec (ids : List String) :
    ∀ st : NameState, ids.Nodup →
      (∀ i ∈ ids, alookup st.assigned i = none) →
      st.usedNames.length + ids.length ≤ 750 →
      (assignNames st ids).1.Nodup ∧
      (∀ n ∈ (assignNames st ids).1, n ∉ st.usedNames) ∧
      (∀ n ∈ st.usedNames, n ∈ (assignNames st ids).2.usedNames) := by
  induction ids with
  | nil =>
    intro st _ _ _
    exact ⟨List.nodup_nil, by simp [assignNames], fun n hn => hn⟩
  | cons id rest ih =>
    intro st hnd hfresh hlen
    have hlen2 : st.usedNames.length < 750 := by
      simp only [List.length_cons] at hlen
      omega
    obtain ⟨n, heq, hnotin⟩ := getDwarfName_fresh st id
      (hfresh id (List.mem_cons_self _ _)) hlen2
    have han : assignNames st (id :: rest) =
        ((getDwarfName st id).1 ::
          (assignNames (getDwarfName st id).2 rest).1,
         (assignNames (getDwarfName st id).2 rest).2) := rfl
    rw [han, heq]
    dsimp only
    obtain ⟨hid_rest, hrest_nd⟩ := List.nodup_cons.mp hnd
    have hfresh1 : ∀ i ∈ rest,
        alookup (aset st.assigned id n) i = none := by
      intro i hi
      rw [alookup_aset]
      rw [if_neg (by rintro rfl; exact hid_rest hi)]
      exact hfresh i (List.mem_cons_of_mem _ hi)
    have hlen1 : (st.usedNames ++ [n]).length + rest.length ≤ 750 := by
      simp only [List.length_append, List.length_cons, List.length_nil]
        at hlen ⊢
      omega
    obtain ⟨i1, i2, i3⟩ := ih
      { assigned := aset st.assigned id n,
        usedNames := st.usedNames ++ [n] } hrest_nd hfresh1 hlen1
    refine ⟨?_, ?_, ?_⟩
    · rw [List.nodup_cons]
      refine ⟨?_, i1⟩
      intro hmemn
      exact i2 n hmemn (List.mem_append_right _ (List.mem_singleton.mpr rfl))
    · intro m hm
      rcases List.mem_cons.mp hm with rfl | hm2
      · exact hnotin
      · intro hmem
        exact i2 m hm2 (List.mem_append_left _ hmem)
    · intro m hm
      exact i3 m (List.mem_append_left _ hm)

/-- Releasing a name assigned to a fresh identifier in a below-capacity
allocator restores the allocator state exactly, so an immediate
re-assignment returns the same name. -/
theorem release_restores (st : NameState) (id : String)
    (hassigned : alookup st.assigned id = none)
    (hlen : st.usedNames.length < 750) :
    releaseName (getDwarfName st id).2 id = st ∧
    getDwarfName (releaseName (getDwarfName st id).2 id) id =
      getDwarfName st id := by
  obtain ⟨n, heq, hnotin⟩ := getDwarfName_fresh st id hassigned hlen
  have hrel : releaseName (getDwarfName st id).2 id = st := by
    rw [heq]
    unfold releaseName
    dsimp only
    rw [alookup_aset, if_pos rfl]
    dsimp only
    rw [aerase_aset_of_none _ _ _ hassigned, filter_append_fresh _ _ hnotin]
  exact ⟨hrel, by rw [hrel]⟩

end DwarfNames

/-! ## Claims -/

/-- C2 (amended): over any operation sequence consisting solely of
heartbeats for a single agent that is live at the start (so every
heartbeat takes the existing-agent path), each milestone is crossed by at
most one heartbeat and exactly one `agent:achievement` event is broadcast
per milestone crossed, with none broadcast while the count stays at or
above it. The amendment excludes the spawn path: a milestone crossed by
the spawn-path tool call (first heartbeat while not live) broadcasts no
achievement event, as the counterexample shows. -/
theorem c2_milestone_achievements_amended (ops : List Bridge.Op) :
    ∀ (s0 : Bridge.ServerState) (agentId : String) (ex0 : Bridge.LiveAgent)
      (p0 : AgentStore.Profile),
      alookup s0.agents agentId = some ex0 →
      alookup s0.store agentId = some p0 →
      (∀ op ∈ ops, Bridge.hbFor agentId op) →
      ∃ p1, alookup (Bridge.runOps s0 ops).1.store agentId = some p1 ∧
        p0.toolCalls ≤ p1.toolCalls ∧
        ∀ m ∈ Bridge.MILESTONES,
          ((Bridge.runOps s0 ops).2.filter (Bridge.achFor agentId m)).length =
            if p0.toolCalls < m ∧ m ≤ p1.toolCalls then 1 else 0 := by
  induction ops with
  | nil =>
    intro s0 agentId ex0 p0 hex hp hops
    refine ⟨p0, hp, le_rfl, ?_⟩
    intro m hm
    have hcond : ¬ (p0.toolCalls < m ∧ m ≤ p0.toolCalls) := by omega
    simp [Bridge.runOps, hcond]
  | cons op rest ih =>
    intro s0 agentId ex0 p0 hex hp hops
    rcases op with ⟨now, hb⟩ | now
    case sweep => exact (hops _ (List.mem_cons_self _ _)).elim
    have hid := hops _ (List.mem_cons_self _ _)
    simp only [Bridge.hbFor] at hid
    have hd := Bridge.heartbeat_existing s0 now hb agentId ex0 hid hex
    have htc0 : AgentStore.toolCallsOf s0.store agentId = some p0.toolCalls := by
      simp [AgentStore.toolCallsOf, hp]
    have htc1 := Bridge.hbExisting_toolCallsOf s0 now agentId ex0
      (Bridge.normActivity hb.activity) hb.detail hb.project
      (Bridge.normParent hb.parentAgent) hb.inputBytes hb.outputBytes
      hb.busy hb.waiting hb.newSpawn
    rw [htc0] at htc1
    have htc1' : AgentStore.toolCallsOf
        (Bridge.heartbeatExisting s0 now agentId ex0
          (Bridge.normActivity hb.activity) hb.detail hb.project
          (Bridge.normParent hb.parentAgent) hb.inputBytes hb.outputBytes
          hb.busy hb.waiting hb.newSpawn).1.store agentId =
        some (p0.toolCalls +
          (if Bridge.toolFlag (Bridge.normActivity hb.activity) then 1 else 0)) := by
      rw [htc1]
      split <;> simp
    obtain ⟨pmid, hpm, hpmtc⟩ := AgentStore.toolCallsOf_some htc1'
    obtain ⟨exm, hag⟩ := Bridge.hbExisting_agents s0 now agentId ex0
      (Bridge.normActivity hb.activity) hb.detail hb.project
      (Bridge.normParent hb.parentAgent) hb.inputBytes hb.outputBytes
      hb.busy hb.waiting hb.newSpawn
    have hexm : alookup (Bridge.heartbeatExisting s0 now agentId ex0
        (Bridge.normActivity hb.activity) hb.detail hb.project
        (Bridge.normParent hb.parentAgent) hb.inputBytes hb.outputBytes
        hb.busy hb.waiting hb.newSpawn).1.agents agentId = some exm := by
      rw [hag, alookup_aset, if_pos rfl]
    obtain ⟨p1, hp1, hle, hcnt⟩ := ih _ agentId exm pmid hexm hpm
      (fun op hop => hops op (List.mem_cons_of_mem _ hop))
    have hstep := fun m => Bridge.hbExisting_achFilter s0 now agentId ex0
      (Bridge.normActivity hb.activity) hb.detail hb.project
      (Bridge.normParent hb.parentAgent) hb.inputBytes hb.outputBytes
      hb.busy hb.waiting hb.newSpawn p0.toolCalls htc0 m
    have hp0mid : p0.toolCalls ≤ pmid.toolCalls := by
      rw [hpmtc]
      split <;> omega
    refine ⟨p1, ?_, ?_, ?_⟩
    · simp only [Bridge.runOps, Bridge.applyOp, hd]
      exact hp1
    · omega
    · intro m hm
      have hstepm := hstep m
      have hcntm := hcnt m hm
      simp only [Bridge.runOps, Bridge.applyOp, hd, List.filter_append,
        List.length_append]
      rw [hstepm, hcntm]
      by_cases htf : Bridge.toolFlag (Bridge.normActivity hb.activity) = true
      · have h1 : pmid.toolCalls = p0.toolCalls + 1 := by
          rw [hpmtc, if_pos htf]
        by_cases hc1 : p0.toolCalls + 1 = m
        · rw [if_pos ⟨htf, hc1, hm⟩, if_neg (by omega),
            if_pos (show p0.toolCalls < m ∧ m ≤ p1.toolCalls by omega)]
        · rw [if_neg (by tauto)]
          by_cases hc2 : pmid.toolCalls < m ∧ m ≤ p1.toolCalls
          · rw [if_pos hc2, if_pos (by omega)]
          · rw [if_neg hc2, if_neg (by omega)]
      · have h1 : pmid.toolCalls = p0.toolCalls := by
          rw [hpmtc, if_neg htf]
          omega
        rw [if_neg (by tauto)]
        by_cases hc2 : pmid.toolCalls < m ∧ m ≤ p1.toolCalls
        · rw [if_pos hc2, if_pos (by omega)]
        · rw [if_neg hc2, if_neg (by omega)]


/-- C6: for every `xp ≥ 0` and for both the agent and the building level
tables, `getLevel(xp)` returns the highest-indexed entry whose
`minXP ≤ xp`, and `getLevel`/`getNextLevel` are consistent: whenever
`getNextLevel(xp)` returns a level `L`, `getLevel(L.minXP) = L`,
`getLevel(L.minXP - 1) ≠ L`, and `L` is exactly one step above
`getLevel(xp)`. -/
theorem c6_level_table_consistency :
    (∀ xp : Int, 0 ≤ xp →
      (AgentStore.getLevel xp ∈ AgentStore.LEVELS ∧
       (AgentStore.getLevel xp).minXP ≤ xp ∧
       ∀ e ∈ AgentStore.LEVELS, e.minXP ≤ xp →
         e.level ≤ (AgentStore.getLevel xp).level) ∧
      (∀ N, AgentStore.getNextLevel xp = some N →
        AgentStore.getLevel N.minXP = N ∧
        AgentStore.getLevel (N.minXP - 1) ≠ N ∧
        N.level = (AgentStore.getLevel xp).level + 1)) ∧
    (∀ buildingId : String, ∀ xp : Int, 0 ≤ xp →
      (BuildingStore.getLevel xp buildingId ∈ BuildingStore.levelsFor buildingId ∧
       (BuildingStore.getLevel xp buildingId).minXP ≤ xp ∧
       ∀ e ∈ BuildingStore.levelsFor buildingId, e.minXP ≤ xp →
         e.level ≤ (BuildingStore.getLevel xp buildingId).level) ∧
      (∀ N, BuildingStore.getNextLevel xp buildingId = some N →
        BuildingStore.getLevel N.minXP buildingId = N ∧
        BuildingStore.getLevel (N.minXP - 1) buildingId ≠ N ∧
        N.level = (BuildingStore.getLevel xp buildingId).level + 1)) := by
  constructor
  · have hs : TableSorted AgentStore.LEVELS := by decide
    have hsucc : SuccClosed AgentStore.LEVELS := by decide
    have h0 : ∃ e ∈ AgentStore.LEVELS, e.minXP = 0 := by decide
    intro xp hxp
    obtain ⟨⟨r, hscan, hrmem, hrle, hrmax⟩, hnext⟩ :=
      levelTable_spec _ hs hsucc h0 xp hxp
    constructor
    · rw [AgentStore.agent_getLevel_eq hscan]
      exact ⟨hrmem, hrle, hrmax⟩
    · intro N hN
      unfold AgentStore.getNextLevel at hN
      obtain ⟨ha, hb, hc⟩ := hnext N hN
      have hNgt : xp < N.minXP := by simpa using List.find?_some hN
      refine ⟨AgentStore.agent_getLevel_eq ha, ?_, ?_⟩
      · obtain ⟨⟨r', hscan', _, _, _⟩, _⟩ :=
          levelTable_spec _ hs hsucc h0 (N.minXP - 1) (by omega)
        rw [AgentStore.agent_getLevel_eq hscan']
        exact hb r' hscan'
      · rw [AgentStore.agent_getLevel_eq hscan]
        exact hc r hscan
  · intro bid
    have hs : TableSorted (BuildingStore.levelsFor bid) := by
      unfold BuildingStore.levelsFor
      split <;> decide
    have hsucc : SuccClosed (BuildingStore.levelsFor bid) := by
      unfold BuildingStore.levelsFor
      split <;> decide
    have h0 : ∃ e ∈ BuildingStore.levelsFor bid, e.minXP = 0 := by
      unfold BuildingStore.levelsFor
      split <;> decide
    intro xp hxp
    obtain ⟨⟨r, hscan, hrmem, hrle, hrmax⟩, hnext⟩ :=
      levelTable_spec _ hs hsucc h0 xp hxp
    constructor
    · rw [BuildingStore.building_getLevel_eq hscan]
      exact ⟨hrmem, hrle, hrmax⟩
    · intro N hN
      unfold BuildingStore.getNextLevel at hN
      obtain ⟨ha, hb, hc⟩ := hnext N hN
      have hNgt : xp < N.minXP := by simpa using List.find?_some hN
      refine ⟨BuildingStore.building_getLevel_eq ha, ?_, ?_⟩
      · obtain ⟨⟨r', hscan', _, _, _⟩, _⟩ :=
          levelTable_spec _ hs hsucc h0 (N.minXP - 1) (by omega)
        rw [BuildingStore.building_getLevel_eq hscan']
        exact hb r' hscan'
      · rw [BuildingStore.building_getLevel_eq hscan]
        exact hc r hscan

/-- C6 witness: the consistency theorem applied at concrete inputs
(`xp = 75` on the agent table, `xp = 120` on the campfire table). -/
theorem c6_level_table_consistency_witness :
    (AgentStore.getLevel 75).minXP ≤ 75 ∧
    AgentStore.getLevel 200 = ⟨3, "Craftsman", 200⟩ ∧
    (BuildingStore.getLevel 120 "campfire").minXP ≤ 120 := by
  have h := c6_level_table_consistency
  refine ⟨(h.1 75 (by norm_num)).1.2.1, ?_,
    (h.2 "campfire" 120 (by norm_num)).1.2.1⟩
  exact ((h.1 75 (by norm_num)).2 ⟨3, "Craftsman", 200⟩ (by decide)).1

/-- A live session as used by the concrete scenarios: a coding agent with
some stored detail. -/
def c3Agent : Bridge.LiveAgent :=
  { name := "Grimin", role := "claude", activity := "coding",
    detail := "old task", project := "ville", busy := false, waiting := false,
    totalInputBytes := 0, totalOutputBytes := 0, spawnedAt := 0, lastSeen := 0,
    parentId := none }

def c3State : Bridge.ServerState :=
  { agents := [("agent-1", c3Agent)], store := [], bstore := [],
    names := DwarfNames.emptyNames, buildingPrevLevels := [] }

/-- A heartbeat with no `activity` field but a fresh non-empty `detail`. -/
def c3HB : Bridge.Heartbeat := { agent := "Agent 1", detail := "new task" }

/-- C3 (amended): a heartbeat for an already-live agent whose `activity`
is absent or null leaves the stored current activity unchanged, but an
`agent:work` event is still emitted exactly when the heartbeat supplies a
non-empty `detail` differing from the stored one (`detailChanged` alone
triggers the work broadcast). -/
theorem c3_null_activity_amended
    (s : Bridge.ServerState) (now : Nat) (hb : Bridge.Heartbeat)
    (agentId : String) (ex : Bridge.LiveAgent)
    (hid : Bridge.normalizeId
      (if hb.agent = "" then "Unknown Agent" else hb.agent) = agentId)
    (hex : alookup s.agents agentId = some ex)
    (hact : Bridge.normActivity hb.activity = none) :
    (∃ ex', alookup (Bridge.heartbeat s now hb).1.agents agentId = some ex' ∧
      ex'.activity = ex.activity) ∧
    ((Bridge.heartbeat s now hb).2.filter (Bridge.workFor agentId) ≠ [] ↔
      (hb.detail ≠ "" ∧ ex.detail ≠ hb.detail)) := by
  rw [Bridge.heartbeat_existing s now hb agentId ex hid hex, hact]
  exact Bridge.hbExisting_nullActivity s now agentId ex hb.detail hb.project
    (Bridge.normParent hb.parentAgent) hb.inputBytes hb.outputBytes hb.busy
    hb.waiting hb.newSpawn

/-- C3 counterexample to the original claim: this heartbeat carries no
activity (`normActivity` yields `none`), yet processing it broadcasts an
`agent:work` event, because the supplied `detail` differs from the stored
one. -/
theorem c3_null_activity_counterexample :
    Bridge.normActivity c3HB.activity = none ∧
    ((Bridge.heartbeat c3State 5 c3HB).2.filter
      (Bridge.workFor "agent-1")).length = 1 := by decide

/-- C3 witness: the amended theorem applied to the concrete
null-activity heartbeat. -/
theorem c3_null_activity_amended_witness :
    (∃ ex', alookup (Bridge.heartbeat c3State 5 c3HB).1.agents "agent-1" =
        some ex' ∧ ex'.activity = c3Agent.activity) ∧
    ((Bridge.heartbeat c3State 5 c3HB).2.filter (Bridge.workFor "agent-1")
      ≠ [] ↔ (c3HB.detail ≠ "" ∧ c3Agent.detail ≠ c3HB.detail)) :=
  c3_null_activity_amended c3State 5 c3HB "agent-1" c3Agent (by decide)
    (by decide) (by decide)

/-- A stored profile one tool call below the level-2 threshold. -/
def c1Profile : AgentStore.Profile :=
  { name := "Grimin", toolCalls := 49, totalInputBytes := 0,
    totalOutputBytes := 0, totalBytes := 0, sessions := 1,
    subAgentsSpawned := 0, parentId := none, clan := none, firstSeen := 0,
    lastSeen := 0, recentActivity := [] }

def c1Agent : Bridge.LiveAgent :=
  { name := "Grimin", role := "claude", activity := "coding", detail := "",
    project := "", busy := false, waiting := false, totalInputBytes := 0,
    totalOutputBytes := 0, spawnedAt := 0, lastSeen := 0, parentId := none }

def c1State : Bridge.ServerState :=
  { agents := [("agent-1", c1Agent)], store := [("agent-1", c1Profile)],
    bstore := [], names := DwarfNames.emptyNames, buildingPrevLevels := [] }

def c1HB : Bridge.Heartbeat := { agent := "Agent 1", activity := some "coding" }

/-- C1: the level-up edge is never broadcast. In this run the agent's
derived level strictly increases across a single heartbeat (the 50th tool
call moves XP from 49 to 50, level 1 to level 2), yet the broadcast stream
holds no `agent:levelup`-class event — only the routine `building:xp` and
the per-heartbeat `agent:xp` refresh. The server computes the level but
only writes the increase to the console. -/
theorem c1_no_levelup_broadcast :
    (AgentStore.getEnrichedProfile c1State.store "agent-1").map
      (fun e => e.level) = some 1 ∧
    (AgentStore.getEnrichedProfile
        (Bridge.heartbeat c1State 5 c1HB).1.store "agent-1").map
      (fun e => e.level) = some 2 ∧
    (Bridge.heartbeat c1State 5 c1HB).2.filter Bridge.isLevelup = [] ∧
    (Bridge.heartbeat c1State 5 c1HB).2.map Bridge.evTag =
      ["building:xp", "agent:xp"] := by decide

/-- A coding heartbeat for the milestone scenarios. -/
def c2hb : Bridge.Heartbeat := { agent := "Agent 1", activity := some "coding" }

/-- Ninety-nine coding heartbeats, an auto-despawn sweep past the timeout,
and one further heartbeat: the last heartbeat takes the spawn path and
records the 100th tool call there. -/
def c2Ops : List Bridge.Op :=
  (List.range 99).map (fun i => Bridge.Op.hb i c2hb) ++
  [Bridge.Op.sweep 700000, Bridge.Op.hb 700001 c2hb]

/-- C2 counterexample to the original claim: over this heartbeat sequence
the stored `toolCalls` count crosses the milestone 100 (reaching exactly
100), yet no `agent:achievement` event at all is broadcast for it — the
crossing happens on the spawn path, which records the tool use without the
milestone check. -/
theorem c2_milestone_counterexample :
    (AgentStore.getEnrichedProfile
        (Bridge.runOps Bridge.initialState c2Ops).1.store "agent-1").map
      (fun e => e.toolCalls) = some 100 ∧
    (Bridge.runOps Bridge.initialState c2Ops).2.filter
      (Bridge.achFor "agent-1" 100) = [] := by decide

def c2wAgent : Bridge.LiveAgent :=
  { name := "Grimin", role := "claude", activity := "coding", detail := "",
    project := "", busy := false, waiting := false, totalInputBytes := 0,
    totalOutputBytes := 0, spawnedAt := 0, lastSeen := 0, parentId := none }

def c2wP0 : AgentStore.Profile :=
  { name := "Grimin", toolCalls := 99, totalInputBytes := 0,
    totalOutputBytes := 0, totalBytes := 0, sessions := 1,
    subAgentsSpawned := 0, parentId := none, clan := none, firstSeen := 0,
    lastSeen := 0, recentActivity := [] }

def c2wS0 : Bridge.ServerState :=
  { agents := [("agent-1", c2wAgent)], store := [("agent-1", c2wP0)],
    bstore := [], names := DwarfNames.emptyNames, buildingPrevLevels := [] }

def c2wOps : List Bridge.Op := [Bridge.Op.hb 5 c2hb]

/-- C2 witness: the amended theorem applied to a live agent at 99 tool
calls receiving one coding heartbeat, which crosses the milestone 100. -/
theorem c2_milestone_achievements_amended_witness :
    ∃ p1, alookup (Bridge.runOps c2wS0 c2wOps).1.store "agent-1" = some p1 ∧
      c2wP0.toolCalls ≤ p1.toolCalls ∧
      ∀ m ∈ Bridge.MILESTONES,
        ((Bridge.runOps c2wS0 c2wOps).2.filter
          (Bridge.achFor "agent-1" m)).length =
          if c2wP0.toolCalls < m ∧ m ≤ p1.toolCalls then 1 else 0 :=
  c2_milestone_achievements_amended c2wOps c2wS0 "agent-1" c2wAgent c2wP0
    (by decide) (by decide) (by decide)

/-- A store obtained by creating a profile while the bridge's call site
passes a clan/project value. -/
def c4Store0 : AgentStore.Store :=
  AgentStore.getProfile [] "agent-1" "Grimin" none (some "alpha") 0

/-- C4: the stored clan is never updated. `getProfile` declares no clan
parameter, so the clan value the bridge passes is dropped (as JS drops
extra arguments) and the stored profile's `clan` stays empty, both on
creation with a clan value and on a later call supplying a different
non-empty clan value. -/
theorem c4_clan_never_updated :
    (alookup c4Store0 "agent-1").map (fun p => p.clan) = some none ∧
    (alookup
        (AgentStore.getProfile c4Store0 "agent-1" "Grimin" none
          (some "beta") 1) "agent-1").map (fun p => p.clan) = some none := by
  decide

/-- C9: on a new subscriber connection, the `/events` snapshot contains an
offline-marked `spawn` event for every durable profile whose agent is not
currently live, with no new heartbeat required — the event is derived
solely from the stored profile. -/
theorem c9_offline_snapshot (s : Bridge.ServerState) (agentId : String)
    (p : AgentStore.Profile) (hp : alookup s.store agentId = some p)
    (hnl : alookup s.agents agentId = none) :
    ∃ lv xp, Bridge.Event.spawn agentId p.name "" lv xp p.parentId none true ∈
      Bridge.snapshotEvents s := by
  have hmem : (agentId, p) ∈ s.store := alookup_mem hp
  refine ⟨Bridge.natOr (AgentStore.getLevel (AgentStore.calculateXP p)).level 1,
    AgentStore.calculateXP p, ?_⟩
  unfold Bridge.snapshotEvents
  rw [List.mem_append, List.mem_append]
  refine Or.inl (Or.inr ?_)
  rw [List.mem_filterMap]
  refine ⟨_, List.mem_map_of_mem _ hmem, ?_⟩
  dsimp only
  rw [hnl]
  rfl

def c9P : AgentStore.Profile :=
  { name := "Steindur", toolCalls := 7, totalInputBytes := 100,
    totalOutputBytes := 50, totalBytes := 0, sessions := 2,
    subAgentsSpawned := 0, parentId := none, clan := none, firstSeen := 0,
    lastSeen := 10, recentActivity := [] }

/-- A restarted bridge: durable store populated, no live agent. -/
def c9S : Bridge.ServerState :=
  { agents := [], store := [("agent-9", c9P)], bstore := [],
    names := DwarfNames.emptyNames, buildingPrevLevels := [] }

/-- C9 witness: the snapshot theorem applied to a restarted bridge with
one stored, offline profile. -/
theorem c9_offline_snapshot_witness :
    ∃ lv xp, Bridge.Event.spawn "agent-9" c9P.name "" lv xp c9P.parentId
      none true ∈ Bridge.snapshotEvents c9S :=
  c9_offline_snapshot c9S "agent-9" c9P (by decide) (by decide)

/-- C10: a live agent removed by the inactivity sweep (which frees its
allocator name) respawns on its next heartbeat with the same display
name: the spawn path reads the durable store's persisted name first and
only falls back to the allocator when no stored name exists. -/
theorem c10_stored_name_precedence (s : Bridge.ServerState)
    (now1 now2 : Nat) (hb : Bridge.Heartbeat) (agentId : String)
    (ex : Bridge.LiveAgent) (p : AgentStore.Profile)
    (hid : Bridge.normalizeId
      (if hb.agent = "" then "Unknown Agent" else hb.agent) = agentId)
    (hlive : alookup s.agents agentId = some ex)
    (hstore : alookup s.store agentId = some p)
    (hpname : p.name ≠ "")
    (hto : now1 - ex.lastSeen > Bridge.DESPAWN_TIMEOUT) :
    alookup (Bridge.despawnSweep s now1).1.agents agentId = none ∧
    ∃ ex', alookup (Bridge.heartbeat (Bridge.despawnSweep s now1).1 now2
        hb).1.agents agentId = some ex' ∧ ex'.name = p.name := by
  have hgone := Bridge.despawnSweep_removes s now1 agentId ex hlive hto
  refine ⟨hgone, ?_⟩
  rw [Bridge.heartbeat_spawn_dispatch _ now2 hb agentId hid hgone]
  exact Bridge.hbSpawn_name _ now2 agentId
    (if hb.agent = "" then "Unknown Agent" else hb.agent)
    (Bridge.normActivity hb.activity) hb.detail hb.project
    (Bridge.normParent hb.parentAgent) hb.inputBytes hb.outputBytes hb.busy
    hb.waiting p (by rw [Bridge.despawnSweep_store]; exact hstore) hpname

def c10Agent : Bridge.LiveAgent :=
  { name := "Steindur", role := "claude", activity := "coding", detail := "",
    project := "", busy := false, waiting := false, totalInputBytes := 0,
    totalOutputBytes := 0, spawnedAt := 0, lastSeen := 0, parentId := none }

def c10P : AgentStore.Profile :=
  { name := "Steindur", toolCalls := 3, totalInputBytes := 0,
    totalOutputBytes := 0, totalBytes := 0, sessions := 1,
    subAgentsSpawned := 0, parentId := none, clan := none, firstSeen := 0,
    lastSeen := 0, recentActivity := [] }

def c10S : Bridge.ServerState :=
  { agents := [("agent-2", c10Agent)], store := [("agent-2", c10P)],
    bstore := [],
    names := ⟨[("agent-2", "Steindur")], ["Steindur"]⟩,
    buildingPrevLevels := [] }

def c10HB : Bridge.Heartbeat := { agent := "Agent 2" }

/-- C10 witness: the precedence theorem applied to an agent swept out
after the timeout and heartbeating again. -/
theorem c10_stored_name_precedence_witness :
    alookup (Bridge.despawnSweep c10S 700000).1.agents "agent-2" = none ∧
    ∃ ex', alookup (Bridge.heartbeat (Bridge.despawnSweep c10S 700000).1
        700001 c10HB).1.agents "agent-2" = some ex' ∧
      ex'.name = c10P.name :=
  c10_stored_name_precedence c10S 700000 700001 c10HB "agent-2" c10Agent
    c10P (by decide) (by decide) (by decide) (by decide) (by decide)

/-- C5 (amended): over every operation sequence (heartbeats interleaved
across any agents, and sweeps) whose heartbeat byte fields are
nonnegative, every stored profile persists and its `toolCalls`,
`totalInputBytes`, `totalOutputBytes`, `sessions` and `subAgentsSpawned`
counters never decrease. The nonnegativity proviso is necessary: the
bridge feeds `parseInt(...) || 0` to the byte counters, so a negative
wire value decreases them, as the counterexample shows. -/
theorem c5_counters_monotone_amended (ops : List Bridge.Op)
    (s0 : Bridge.ServerState)
    (hnn : ∀ op ∈ ops, Bridge.bytesNonneg op) :
    AgentStore.storeLe s0.store (Bridge.runOps s0 ops).1.store := by
  induction ops generalizing s0 with
  | nil => exact AgentStore.storeLe_refl _
  | cons op rest ih =>
    unfold Bridge.runOps
    dsimp only
    exact AgentStore.storeLe_trans
      (Bridge.applyOp_storeLe s0 op (hnn op (List.mem_cons_self _ _)))
      (ih _ (fun o ho => hnn o (List.mem_cons_of_mem _ ho)))

def c5hb1 : Bridge.Heartbeat :=
  { agent := "Agent 1", activity := some "coding", inputBytes := 1000 }

def c5hb2 : Bridge.Heartbeat :=
  { agent := "Agent 1", activity := some "coding", inputBytes := -600 }

def c5op1 : Bridge.Op := Bridge.Op.hb 1 c5hb1

def c5op2 : Bridge.Op := Bridge.Op.hb 2 c5hb2

/-- C5 counterexample to the original claim: a heartbeat whose
`inputBytes` field parses to a negative number (`parseInt(...) || 0`
accepts it) drives the stored `totalInputBytes` from 1000 down to 400. -/
theorem c5_counters_counterexample :
    (alookup (Bridge.runOps Bridge.initialState [c5op1]).1.store
      "agent-1").map (fun p => p.totalInputBytes) = some 1000 ∧
    (alookup (Bridge.runOps Bridge.initialState [c5op1, c5op2]).1.store
      "agent-1").map (fun p => p.totalInputBytes) = some 400 := by decide

/-- C5 witness: the monotonicity theorem applied to a concrete
nonnegative-byte run. -/
theorem c5_counters_monotone_amended_witness :
    AgentStore.storeLe Bridge.initialState.store
      (Bridge.runOps Bridge.initialState [c5op1]).1.store :=
  c5_counters_monotone_amended [c5op1] Bridge.initialState (by decide)

/-- C7: assigning dwarf names to any list of pairwise-distinct
identifiers whose count does not exceed the prefix-suffix cross-product
(750 combinations) yields pairwise-distinct names — in particular for any
population well below that size. -/
theorem c7_distinct_names (ids : List String) (hnd : ids.Nodup)
    (hlen : ids.length ≤ 750) :
    (DwarfNames.assignNames DwarfNames.emptyNames ids).1.Nodup :=
  (DwarfNames.assignNames_spec ids DwarfNames.emptyNames hnd
    (fun _ _ => rfl) (by simpa [DwarfNames.emptyNames] using hlen)).1

/-- C7 witness: three distinct identifiers receive three distinct names. -/
theorem c7_distinct_names_witness :
    (DwarfNames.assignNames DwarfNames.emptyNames
      ["agent-1", "agent-2", "agent-3"]).1.Nodup :=
  c7_distinct_names ["agent-1", "agent-2", "agent-3"] (by decide) (by decide)

/-- C8 (amended): releasing a freshly assigned name and immediately
re-assigning the same identifier — with no operation at all in between —
returns the same name; the release restores the allocator state exactly.
The original claim allowed arbitrary interim operations as long as the
name itself stayed unclaimed, which the counterexample refutes: an
interim release of a different identifier can free an earlier probe slot
and redirect the re-assignment. -/
theorem c8_release_reassign_amended (st : DwarfNames.NameState)
    (id : String) (hassigned : alookup st.assigned id = none)
    (hlen : st.usedNames.length < 750) :
    DwarfNames.releaseName (DwarfNames.getDwarfName st id).2 id = st ∧
    DwarfNames.getDwarfName
        (DwarfNames.releaseName (DwarfNames.getDwarfName st id).2 id) id =
      DwarfNames.getDwarfName st id :=
  DwarfNames.release_restores st id hassigned hlen

/-- C8 witness: the release-reassign identity at a concrete fresh
allocator. -/
theorem c8_release_reassign_amended_witness :
    DwarfNames.releaseName
        (DwarfNames.getDwarfName DwarfNames.emptyNames "agent-7").2
        "agent-7" = DwarfNames.emptyNames ∧
    DwarfNames.getDwarfName
        (DwarfNames.releaseName
          (DwarfNames.getDwarfName DwarfNames.emptyNames "agent-7").2
          "agent-7") "agent-7" =
      DwarfNames.getDwarfName DwarfNames.emptyNames "agent-7" :=
  c8_release_reassign_amended DwarfNames.emptyNames "agent-7" (by decide)
    (by decide)

def c8N1 : DwarfNames.NameState :=
  (DwarfNames.getDwarfName DwarfNames.emptyNames "agent-20").2

def c8N2 : DwarfNames.NameState :=
  (DwarfNames.getDwarfName c8N1 "agent-13").2

def c8N3 : DwarfNames.NameState := DwarfNames.releaseName c8N2 "agent-13"

def c8N4 : DwarfNames.NameState := DwarfNames.releaseName c8N3 "agent-20"

/-- C8 counterexample to the original claim: `agent-20` and `agent-13`
hash to the same probe start. After both are assigned (`agent-13` probes
on to "Nargdrin"), `agent-13` is released and then `agent-20` is
released; no identifier ever claims "Nargdrin" in the interim, yet
re-assigning `agent-13` now returns its hash-start name "Nargthak"
instead of its previous name. -/
theorem c8_release_reassign_counterexample :
    (DwarfNames.getDwarfName c8N1 "agent-13").1 = "Nargdrin" ∧
    "Nargdrin" ∉ c8N3.usedNames ∧
    "Nargdrin" ∉ c8N4.usedNames ∧
    (DwarfNames.getDwarfName c8N4 "agent-13").1 = "Nargthak" ∧
    (DwarfNames.getDwarfName c8N4 "agent-13").1 ≠
      (DwarfNames.getDwarfName c8N1 "agent-13").1 := by decide

end AgentVille
